import Mathlib

/-!
Verification of the snakecube repository (src/vector.py and src/snakecube.py)
against its natural-language specification.

The Python sources are shallowly embedded below.  Pure functions become Lean
functions; the mutable `Backtrack` object becomes explicit state passing; the
`while` loops of `Backtrack._backtrack` and `Backtrack.solve` become fueled
recursions returning `none` when the fuel runs out; Python exceptions
(`AssertionError` from `BacktrackHead.rotate_to`, `IndexError` from list
indexing/popping, `KeyError` from dict lookup) become an explicit `PyError`
value threaded through `Except`.
-/

/-! ## vector.py -/

/-- Embeds vector.py's `Vector3D`: a simple integer 3-vector. -/
structure Vector3D where
  x : Int
  y : Int
  z : Int

deriving DecidableEq, Repr

/-- `Vector3D.__add__`. -/
def Vector3D.add (a b : Vector3D) : Vector3D :=
  ⟨a.x + b.x, a.y + b.y, a.z + b.z⟩

instance : Add Vector3D := ⟨Vector3D.add⟩

/-- `Vector3D.__sub__`. -/
def Vector3D.sub (a b : Vector3D) : Vector3D :=
  ⟨a.x - b.x, a.y - b.y, a.z - b.z⟩

instance : Sub Vector3D := ⟨Vector3D.sub⟩

/-- `Vector3D.__rmul__`: scalar (on the left) times vector. -/
def Vector3D.smul (n : Int) (v : Vector3D) : Vector3D :=
  ⟨n * v.x, n * v.y, n * v.z⟩

instance : HMul Int Vector3D Vector3D := ⟨Vector3D.smul⟩

/-- `Vector3D.to_list`. -/
def Vector3D.to_list (v : Vector3D) : List Int := [v.x, v.y, v.z]

/-- `Vector3D.from_list`.  The source indexes `lst[0]`, `lst[1]`, `lst[2]`;
it is only ever applied to lists of length 3 (`multiply` of a 3-row matrix). -/
def Vector3D.from_list (lst : List Int) : Vector3D :=
  ⟨lst.getD 0 0, lst.getD 1 0, lst.getD 2 0⟩

/-- vector.py's `multiply(matrix, vector)`: matrix product of a list-of-rows
matrix with a vector.  The source iterates the vector (yielding `[x, y, z]`),
zips each row with it and sums the products. -/
def multiply (matrix : List (List Int)) (vector : Vector3D) : Vector3D :=
  Vector3D.from_list
    (matrix.map (fun row => ((row.zip vector.to_list).map (fun p => p.1 * p.2)).sum))

/-- vector.py's `baseVectors`. -/
def baseVectors : List Vector3D := [⟨1,0,0⟩, ⟨0,1,0⟩, ⟨0,0,1⟩]

/-- vector.py's `baseDirections`. -/
def baseDirections : List Vector3D :=
  [⟨1,0,0⟩, ⟨0,1,0⟩, ⟨0,0,1⟩, ⟨-1,0,0⟩, ⟨0,-1,0⟩, ⟨0,0,-1⟩]

/-- vector.py's `rotx` (90 degree rotation about the x axis). -/
def rotx : List (List Int) := [[1, 0, 0], [0, 0, -1], [0, 1, 0]]

/-- vector.py's `roty`. -/
def roty : List (List Int) := [[0, 0, 1], [0, 1, 0], [-1, 0, 0]]

/-- vector.py's `rotz`. -/
def rotz : List (List Int) := [[0, -1, 0], [1, 0, 0], [0, 0, 1]]

/-- vector.py's `mirror_yz`. -/
def mirror_yz : List (List Int) := [[-1, 0, 0], [0, 1, 0], [0, 0, 1]]

/-- vector.py's `mirror_zx`. -/
def mirror_zx : List (List Int) := [[1, 0, 0], [0, -1, 0], [0, 0, 1]]

/-- vector.py's `mirror_xy`. -/
def mirror_xy : List (List Int) := [[1, 0, 0], [0, 1, 0], [0, 0, -1]]

/-! ## snakecube.py: the joint-direction lookup table -/

/-- The dict `mapVtoRM` inside `_makeJointDirections`, keyed on
`str(vector)`; `str` is injective on `Vector3D`, so we key on the vector
itself.  It is only looked up at the three `baseVectors`. -/
def mapVtoRM (v : Vector3D) : List (List Int) :=
  if v = ⟨1,0,0⟩ then rotx
  else if v = ⟨0,1,0⟩ then roty
  else rotz

/-- The list `newDirections` built by `_makeJointDirections` for base vector
number `i`: start with `baseVectors[(i+1) % 3]` and then four times append
`multiply(rotmat, newDirections[-1])` (the loop `for j in range(N_PLANE_BASEDIR)`
with `N_PLANE_BASEDIR = 4`), giving a list of five vectors. -/
def mkNewDirections (i : Nat) : List Vector3D :=
  let vector := baseVectors.getD i ⟨0,0,0⟩
  let rotmat := mapVtoRM vector
  let d0 := baseVectors.getD ((i + 1) % 3) ⟨0,0,0⟩
  let d1 := multiply rotmat d0
  let d2 := multiply rotmat d1
  let d3 := multiply rotmat d2
  let d4 := multiply rotmat d3
  [d0, d1, d2, d3, d4]

/-- The dict `jointDirections` as an association list, in insertion order:
for every `i, vector in enumerate(baseVectors)` the same `newDirections`
list is stored under `str(vector)` and `str(-1*vector)`.  All six keys are
distinct, so dict insertion never overwrites. -/
def jointDirectionsEntries : List (Vector3D × List Vector3D) :=
  (List.range 3).foldl
    (fun acc i =>
      let vector := baseVectors.getD i ⟨0,0,0⟩
      let newDirections := mkNewDirections i
      acc ++ [(vector, newDirections), ((-1 : Int) * vector, newDirections)])
    []

/-- Dict lookup `jointDirections[str(v)]`; `none` models Python's `KeyError`. -/
def jointDirectionsGet (v : Vector3D) : Option (List Vector3D) :=
  (jointDirectionsEntries.find? (fun e => e.1 = v)).map (fun e => e.2)

/-- snakecube.py's `N_JNTS`. -/
def N_JNTS : Int := 4

/-- snakecube.py's `JOINT0`. -/
def JOINT0 : Int := 0

/-- snakecube.py's `POS_USED`. -/
def POS_USED : Int := -1

/-- snakecube.py's `POS_FREE`. -/
def POS_FREE : Int := -2

/-! ## snakecube.py: BacktrackHead -/

deriving instance DecidableEq for Except

/-- Python exceptions that can escape the embedded operations. -/
inductive PyError where
  | assertionError
  | indexError
  | keyError

deriving DecidableEq, Repr

/-- Embeds `BacktrackHead`: current position `base`, current direction
`direction`, and `_old_direction` (`None` at construction, set by
`change_direction`). -/
structure BacktrackHead where
  base : Vector3D
  direction : Vector3D
  old_direction : Option Vector3D := none

deriving DecidableEq, Repr

/-- `BacktrackHead.get_sign`: `1` if `max(direction.to_list()) == 1`,
else `-1`. -/
def BacktrackHead.get_sign (h : BacktrackHead) : Int :=
  if max h.direction.x (max h.direction.y h.direction.z) = 1 then 1 else -1

/-- `BacktrackHead.move(nsteps)`: `base += nsteps * direction`. -/
def BacktrackHead.move (h : BacktrackHead) (nsteps : Int) : BacktrackHead :=
  { h with base := h.base + nsteps * h.direction }

/-- `BacktrackHead.change_direction()`: save the direction into
`_old_direction` and reset the direction to entry `JOINT0` of the lookup
table.  `none` models the `KeyError` raised when the current direction is
not one of the six table keys. -/
def BacktrackHead.change_direction (h : BacktrackHead) : Option BacktrackHead :=
  (jointDirectionsGet h.direction).map (fun lst =>
    { base := h.base
      direction := lst.getD JOINT0.toNat ⟨0,0,0⟩
      old_direction := some h.direction })

/-- `BacktrackHead.rotate_to(joint_state)`: `assert self._old_direction is
not None`, then set the direction to entry `joint_state` of the table list
of `_old_direction`.  The assertion failure, a missing dict key and an
out-of-range list index are reported as the corresponding `PyError`.
All call sites pass `joint_state = (s + 1) % N_JNTS`, a nonnegative value,
so plain `Nat` indexing is faithful. -/
def BacktrackHead.rotate_to (h : BacktrackHead) (joint_state : Int) :
    Except PyError BacktrackHead :=
  match h.old_direction with
  | none => .error .assertionError
  | some od =>
    match jointDirectionsGet od with
    | none => .error .keyError
    | some lst =>
      if joint_state.toNat < lst.length then
        .ok { h with direction := lst.getD joint_state.toNat ⟨0,0,0⟩ }
      else .error .indexError

/-! ## snakecube.py: Backtrack -/

/-- The cube matrix `_cube`: a `cubesize` list of `cubesize` lists of
`cubesize` cell values. -/
abbrev Cube := List (List (List Int))

/-- Read `_cube[p.x][p.y][p.z]`.  All reads performed by the engine on the
states the claims are about are at in-bounds positions (this is proved as
part of the occupancy invariant); the defaults are never reached there. -/
def cubeGet (cube : Cube) (p : Vector3D) : Int :=
  ((cube.getD p.x.toNat []).getD p.y.toNat []).getD p.z.toNat POS_FREE

/-- Write `_cube[p.x][p.y][p.z] = value` (`List.set` at each level). -/
def cubeSet (cube : Cube) (p : Vector3D) (value : Int) : Cube :=
  let plane := cube.getD p.x.toNat []
  let row := plane.getD p.y.toNat []
  cube.set p.x.toNat (plane.set p.y.toNat (row.set p.z.toNat value))

/-- Embeds the `Backtrack` object's fields.  `_chainlength` is
`chain.length` (the chain is immutable).  Chain entries are step counts;
the sources only ever use nonnegative entries, so they are `Nat`. -/
structure Backtrack where
  chain : List Nat
  cubesize : Nat
  head : BacktrackHead
  pos : Nat
  cube : Cube
  paths : List (List BacktrackHead)

deriving DecidableEq, Repr

/-- `Backtrack.__init__`: cube all `POS_FREE`, `_pos = 0`, `_paths = []`. -/
def Backtrack.init (chain : List Nat) (cubesize : Nat) (head : BacktrackHead) :
    Backtrack :=
  { chain := chain
    cubesize := cubesize
    head := head
    pos := 0
    cube := List.replicate cubesize
              (List.replicate cubesize (List.replicate cubesize POS_FREE))
    paths := [] }

/-- `Backtrack._cube_get_offset(offset)`. -/
def Backtrack.cube_get_offset (b : Backtrack) (offset : Int) : Int :=
  cubeGet b.cube (b.head.base + offset * b.head.direction)

/-- `Backtrack._cube_set_offset(offset, value)`. -/
def Backtrack.cube_set_offset (b : Backtrack) (offset : Int) (value : Int) :
    Backtrack :=
  { b with cube := cubeSet b.cube (b.head.base + offset * b.head.direction) value }

/-- `for i in range(lo, hi): self._cube_set_offset(i, value)` — used with
`range(1, steps_needed)` when laying a slice and `range(1, steps + 1)` when
freeing one. -/
def Backtrack.markRange (b : Backtrack) (lo hi : Nat) (value : Int) : Backtrack :=
  (List.range' lo (hi - lo)).foldl
    (fun b (i : Nat) => b.cube_set_offset (i : Int) value) b

/-- `Backtrack._joint_wrapped(joint_state)`. -/
def Backtrack.joint_wrapped (_ : Backtrack) (joint_state : Int) : Prop :=
  joint_state ≥ N_JNTS

instance (b : Backtrack) (js : Int) : Decidable (b.joint_wrapped js) :=
  inferInstanceAs (Decidable (js ≥ N_JNTS))

/-- One iteration of the `while` loop in `Backtrack._nsteps`, with explicit
fuel.  The Python loop walks at most `cubesize` cells (each iteration steps
one cell along a base direction while staying inside `[0, cubesize)`), so
fuel `cubesize` at the call site reproduces it exactly; the fuel can only
run out in states the engine never reaches. -/
def Backtrack.nstepsAux (b : Backtrack) : Nat → Nat → Nat
  | 0, nsteps => nsteps
  | fuel + 1, nsteps =>
    let probe := b.head.base + ((nsteps : Int) + 1) * b.head.direction
    let boundOk :=
      if b.head.get_sign = 1 then
        max probe.x (max probe.y probe.z) < (b.cubesize : Int)
      else
        0 ≤ min probe.x (min probe.y probe.z)
    if boundOk ∧ b.cube_get_offset ((nsteps : Int) + 1) = POS_FREE then
      b.nstepsAux fuel (nsteps + 1)
    else nsteps

/-- `Backtrack._nsteps()`: the number of straight steps the head can make
while staying in bounds (`max(pos + dir) < cubesize` for a positive
direction, `min(pos + dir) >= 0` for a negative one) and only crossing
`POS_FREE` cells. -/
def Backtrack.nsteps (b : Backtrack) : Nat :=
  b.nstepsAux b.cubesize 0

/-- The outcome of one iteration of the `while self._pos < self._chainlength`
loop in `Backtrack._backtrack`. -/
inductive StepResult where
  /-- The loop guard failed: `_backtrack` returns `path` (a new solution). -/
  | done (path : List BacktrackHead)
  /-- `return None`: the backtracking is exhausted. -/
  | exhausted
  /-- An uncaught Python exception propagates out of `_backtrack`. -/
  | error (e : PyError)
  /-- The loop continues with the updated engine state and local `path`. -/
  | cont (b : Backtrack) (path : List BacktrackHead)

deriving DecidableEq, Repr

/-- The "restore and pick a new direction" code that appears verbatim both
in the subsequent-run entry of `Backtrack._backtrack` (lines 281-296) and in
its wrapped-joint branch (lines 369-382): pop the last head off `path`
(an `IndexError` on an empty list), decrement `_pos`, set all `steps_to_delete`
cells of the popped slice back to `POS_FREE`, read the joint state at the
restored head, `rotate_to((joint_state+1) % N_JNTS)` (this `rotate_to` call is
not guarded by any try/except, so an `AssertionError` propagates) and write
`joint_state + 1` back into the cube. -/
def Backtrack.restoreStep (b : Backtrack) (path : List BacktrackHead) :
    Except PyError (Backtrack × List BacktrackHead) :=
  match path.getLast? with
  | none => .error .indexError
  | some popped =>
    let path := path.dropLast
    let b := { b with pos := b.pos - 1, head := popped }
    -- restore cube
    let steps_to_delete := b.chain.getD b.pos 0
    let b := b.markRange 1 (steps_to_delete + 1) POS_FREE
    -- pick new direction
    let joint_state := b.cube_get_offset 0
    match b.head.rotate_to ((joint_state + 1) % N_JNTS) with
    | .error e => .error e
    | .ok h =>
      let b := { b with head := h }
      let b := b.cube_set_offset 0 (joint_state + 1)
      .ok (b, path)

/-- One iteration of the loop body of `Backtrack._backtrack` (the code from
the `while` guard at line 299 to line 382 of snakecube.py), acting on the
engine state `b` and the loop-local variable `path`. -/
def Backtrack.loopStep (b : Backtrack) (path : List BacktrackHead) : StepResult :=
  if b.pos < b.chain.length then
    let joint_state := b.cube_get_offset 0
    if ¬ b.joint_wrapped joint_state then
      -- joint_state okay
      let steps_needed := b.chain.getD b.pos 0
      let steps_allowed := b.nsteps
      if steps_allowed < steps_needed then
        match b.head.rotate_to ((joint_state + 1) % N_JNTS) with
        | .error .assertionError =>
          -- `except AssertionError: return None`
          .exhausted
        | .error e => .error e
        | .ok h =>
          let b := { b with head := h }
          let b := b.cube_set_offset 0 (joint_state + 1)
          .cont b path
      else
        -- record new joint direction, mark the cells between the joints
        let b := b.markRange 1 steps_needed POS_USED
        let b := b.cube_set_offset (steps_needed : Int) JOINT0
        -- path: record current state of head
        let path := path ++ [b.head]
        let h := (b.head.move (steps_needed : Int))
        match h.change_direction with
        | none => .error .keyError
        | some h => .cont { b with head := h, pos := b.pos + 1 } path
    else
      -- joint_state wrapped around
      if b.pos = 1 then
        .exhausted
      else
        match b.restoreStep path with
        | .error e => .error e
        | .ok (b, path) => .cont b path
  else
    .done path

/-- The `while` loop of `Backtrack._backtrack`, with fuel; `none` means the
fuel ran out.  On a normal exit it yields the final engine state together
with `some path` (a solution) or `none` (the Python `None`). -/
def Backtrack.loopRun :
    Nat → Backtrack → List BacktrackHead →
    Option (Except PyError (Backtrack × Option (List BacktrackHead)))
  | 0, _, _ => none
  | fuel + 1, b, path =>
    match b.loopStep path with
    | .done path => some (.ok (b, some path))
    | .exhausted => some (.ok (b, none))
    | .error e => some (.error e)
    | .cont b path => Backtrack.loopRun fuel b path

/-- `Backtrack._backtrack()`.  The first run (`_pos == 0`) marks the cell at
the starting head `POS_USED` and enters the loop with an empty path; a
subsequent run restores `path`, `_pos`, the head and the cube from the last
recorded solution (`self._paths[-1]`, an `IndexError` when `_paths` is
empty), rotates the restored head to the next joint state (an unguarded
`rotate_to`) and re-enters the loop. -/
def Backtrack.backtrack (fuel : Nat) (b : Backtrack) :
    Option (Except PyError (Backtrack × Option (List BacktrackHead))) :=
  if b.pos = 0 then
    -- first run
    let b := b.cube_set_offset 0 POS_USED
    b.loopRun fuel []
  else
    -- subsequent run: `path = copy.deepcopy(self._paths[-1])`, then the
    -- same restore code as in the wrapped-joint branch of the loop
    match b.paths.getLast? with
    | none => some (.error .indexError)
    | some last =>
      match b.restoreStep last with
      | .error e => some (.error e)
      | .ok (b, path) => b.loopRun fuel path

/-- The `while path is not None` loop inside `Backtrack.solve`, with fuel
for the number of `_backtrack` calls (each `_backtrack` call receives
`innerFuel` loop iterations).  Returns the engine state after exhaustion. -/
def Backtrack.solveLoop (innerFuel : Nat) :
    Nat → Backtrack → Option (Except PyError Backtrack)
  | 0, _ => none
  | outer + 1, b =>
    match b.backtrack innerFuel with
    | none => none
    | some (.error e) => some (.error e)
    | some (.ok (b, none)) => some (.ok b)
    | some (.ok (b, some path)) =>
      Backtrack.solveLoop innerFuel outer { b with paths := b.paths ++ [path] }

/-- `Backtrack.solve()`: when `_paths == []` run `_backtrack` in a loop,
appending every returned solution, until it returns `None`; otherwise
("already solved") return `_paths` unchanged.  The result pairs the
returned `_paths` value with the engine state after the call. -/
def Backtrack.solve (fuel : Nat) (b : Backtrack) :
    Option (Except PyError (List (List BacktrackHead) × Backtrack)) :=
  if b.paths = [] then
    (Backtrack.solveLoop fuel fuel b).map (fun r => r.map (fun b => (b.paths, b)))
  else
    some (.ok (b.paths, b))

/-! ## Claim-side definitions

The definitions below do not embed source code; they state, in the spec's
vocabulary, the properties the claims talk about (bounds, the replay of a
solution's swept cells, the transition-table properties, the reference
scenarios of the spec) and the search invariant used to prove them. -/

/-- `p` is a cell of the `cubesize`-sized cube: all coordinates in
`[0, cubesize)`. -/
def inCube (cubesize : Nat) (p : Vector3D) : Prop :=
  0 ≤ p.x ∧ p.x < (cubesize : Int) ∧ 0 ≤ p.y ∧ p.y < (cubesize : Int) ∧
    0 ≤ p.z ∧ p.z < (cubesize : Int)

instance (s : Nat) (p : Vector3D) : Decidable (inCube s p) := by
  unfold inCube; infer_instance

/-- Dot product, for the perpendicularity part of the table claims. -/
def dot3 (a b : Vector3D) : Int := a.x * b.x + a.y * b.y + a.z * b.z

/-- The 90-degree rotation matrix of the axis a key direction lies on
("the key axis's rotation matrix" of the spec). -/
def keyAxisRot (v : Vector3D) : List (List Int) :=
  if v.x ≠ 0 then rotx else if v.y ≠ 0 then roty else rotz

/-- The cells swept by one slice when replayed from a head snapshot: the
`n` cells reached from `base` by `1, 2, ..., n` steps along `direction`
(the snapshot's own base cell belongs to the previous slice). -/
def sliceCells (h : BacktrackHead) (n : Nat) : List Vector3D :=
  (List.range n).map (fun (j : Nat) => h.base + ((j : Int) + 1) * h.direction)

/-- Helper for `pathSweep`: the slice sweeps of the snapshots of a path,
each over the corresponding chain entry. -/
def sweepTail : List Nat → List BacktrackHead → List Vector3D
  | _, [] => []
  | chain, h :: rest => sliceCells h (chain.getD 0 0) ++ sweepTail chain.tail rest

/-- The cube cells swept by a recorded path, obtained by replaying each
snapshot's base position and direction over the corresponding chain entry:
the starting cell followed by every slice's swept cells. -/
def pathSweep (chain : List Nat) (path : List BacktrackHead) : List Vector3D :=
  match path with
  | [] => []
  | h :: _ => h.base :: sweepTail chain path

/-- Default head used with `List.getD` in index-based statements. -/
def hdflt : BacktrackHead := { base := ⟨0,0,0⟩, direction := ⟨0,0,0⟩ }

/-- The landing cell of a slice of `n` steps laid from snapshot `h`. -/
def EndOf (h : BacktrackHead) (n : Nat) : Vector3D :=
  h.base + (n : Int) * h.direction

/-- The snapshots of `path` chain up: each snapshot's successor (and, for
the last snapshot, the head base `hb`) sits at the landing cell of the
slice laid from it. -/
def Links (chain : List Nat) (path : List BacktrackHead) (hb : Vector3D) : Prop :=
  ∀ k, k < path.length →
    (if k + 1 = path.length then hb else (path.getD (k + 1) hdflt).base)
      = EndOf (path.getD k hdflt) (chain.getD k 0)

/-- The cells currently occupied by the partial snake: just the head's
cell before any slice is laid, otherwise the replayed sweep of the partial
path. -/
def occCellsF (chain : List Nat) (path : List BacktrackHead) (hb : Vector3D) :
    List Vector3D :=
  match path with
  | [] => [hb]
  | _ => pathSweep chain path

/-- The cube value matrix has size `s` in every dimension. -/
def CubeDims (s : Nat) (cube : Cube) : Prop :=
  cube.length = s ∧ ∀ i, i < s → (cube.getD i []).length = s ∧
    ∀ j, j < s → ((cube.getD i []).getD j []).length = s

/-- The invariant of the search loop of `Backtrack._backtrack`, tying the
engine state `b` to the loop-local partial solution `path`. -/
structure EngineInv (b : Backtrack) (path : List BacktrackHead) : Prop where
  hlen : path.length = b.pos
  hple : b.pos ≤ b.chain.length
  hdims : CubeDims b.cubesize b.cube
  hbase : inCube b.cubesize b.head.base
  hlink : Links b.chain path b.head.base
  hdirs : ∀ h ∈ path, h.direction ∈ baseDirections
  hchain : ∀ n ∈ b.chain, 0 < n
  hnodup : (occCellsF b.chain path b.head.base).Nodup
  hincube : ∀ c ∈ occCellsF b.chain path b.head.base, inCube b.cubesize c
  hiff : ∀ c, inCube b.cubesize c →
    (cubeGet b.cube c = POS_FREE ↔ c ∉ occCellsF b.chain path b.head.base)
  hlo : ∀ c, POS_FREE ≤ cubeGet b.cube c

/-! ### Reference scenarios -/

/-- The starting head of the spec's scenarios:
`BacktrackHead(Vector3D(0,0,0), Vector3D(1,0,0))`. -/
def startHead : BacktrackHead := { base := ⟨0,0,0⟩, direction := ⟨1,0,0⟩ }

/-- The solutions list of a finished `solve` run (empty if the run was cut
short by fuel or ended in an exception). -/
def solsOf (r : Option (Except PyError (List (List BacktrackHead) × Backtrack))) :
    List (List BacktrackHead) :=
  match r with
  | some (.ok (s, _)) => s
  | _ => []

/-- Whether a `solve` run finished normally (no exception, enough fuel). -/
def isOkRun (r : Option (Except PyError (List (List BacktrackHead) × Backtrack))) :
    Bool :=
  match r with
  | some (.ok _) => true
  | _ => false

/-- The ordered base positions of a path's snapshots. -/
def basesOf (p : List BacktrackHead) : List Vector3D := p.map (fun h => h.base)

/-- Scenario A engine: chain `[1]`, cubesize `1`, the standard start. -/
def scenarioA : Backtrack := Backtrack.init [1] 1 startHead

/-- Scenario C chain (the reference puzzle `chain_slices` of `main()`). -/
def chainC : List Nat := [2, 1, 1, 2, 1, 2, 1, 1, 2, 2, 1, 1, 1, 2, 2, 2, 2]

/-- Scenario C engine: the reference puzzle in a 3-cube from the standard
start. -/
def engC : Backtrack := Backtrack.init chainC 3 startHead

/-- The symmetry of scenario C (the `f` of `main()`): mirror at the
yz-plane, rotate 90 degrees about the x axis, then twice 90 degrees about
the z axis. -/
def transformC (v : Vector3D) : Vector3D :=
  multiply rotz (multiply rotz (multiply rotx (multiply mirror_yz v)))

/-- The claimed outcome of a scenario C run: it finishes normally with
exactly two solutions, and the second solution's ordered base positions
are the `transformC`-image of the first solution's. -/
def c6post (r : Option (Except PyError (List (List BacktrackHead) × Backtrack))) :
    Bool :=
  match r with
  | some (.ok (sols, _)) =>
    sols.length == 2 &&
      basesOf (sols.getD 1 []) == (basesOf (sols.getD 0 [])).map transformC
  | _ => false

/-- Failing input of the uncaught-assertion bug: chain `[1]`, cubesize `2`,
the standard start (the chain has a solution, and re-entering `_backtrack`
afterwards pops the first snapshot, whose `_old_direction` is unset). -/
def c2engine : Backtrack := Backtrack.init [1] 2 startHead

/-- Failing input of the re-query bug: chain `[1, 3]`, cubesize `2`, the
standard start (the first slice fits but the second never does, so the
search exhausts with zero solutions at `_pos = 1`). -/
def c3engine : Backtrack := Backtrack.init [1, 3] 2 startHead

/-- The second `solve()` call on the `c3engine` after the first call has
exhausted the search. -/
def c3second : Option (Except PyError (List (List BacktrackHead) × Backtrack)) :=
  match Backtrack.solve 64 c3engine with
  | some (.ok (_, b)) => Backtrack.solve 64 b
  | _ => none


/-- The bound checked by `_nsteps` before stepping onto the cell `j` steps
ahead of the head: for a positive direction all coordinates stay below
`cubesize`, for a negative one they stay nonnegative. -/
def nstepsGuard (b : Backtrack) (j : Nat) : Prop :=
  if b.head.get_sign = 1 then
    max (b.head.base + (j : Int) * b.head.direction).x
      (max (b.head.base + (j : Int) * b.head.direction).y
        (b.head.base + (j : Int) * b.head.direction).z) < (b.cubesize : Int)
  else
    0 ≤ min (b.head.base + (j : Int) * b.head.direction).x
      (min (b.head.base + (j : Int) * b.head.direction).y
        (b.head.base + (j : Int) * b.head.direction).z)

def c4engine : Backtrack :=
  { chain := [1, 1]
    cubesize := 2
    head := { base := ⟨1,0,0⟩, direction := ⟨0,1,0⟩, old_direction := some ⟨1,0,0⟩ }
    pos := 1
    cube := cubeSet (Backtrack.init [1, 1] 2 startHead).cube ⟨1,0,0⟩ 4
    paths := [] }

def c4path : List BacktrackHead := [startHead]

def w11run : Option (Except PyError (List (List BacktrackHead) × Backtrack)) :=
  Backtrack.solve 32 (Backtrack.init [1, 1] 2 startHead)

def w11sols : List (List BacktrackHead) := solsOf w11run

def w11fin : Backtrack :=
  match w11run with
  | some (.ok (_, b)) => b
  | _ => Backtrack.init [] 0 startHead

def w111run : Option (Except PyError (List (List BacktrackHead) × Backtrack)) :=
  Backtrack.solve 100 (Backtrack.init [1, 1, 1] 2 startHead)

def w111sols : List (List BacktrackHead) := solsOf w111run

def w111fin : Backtrack :=
  match w111run with
  | some (.ok (_, b)) => b
  | _ => Backtrack.init [] 0 startHead

def c4wpopped : BacktrackHead :=
  { base := ⟨0,0,0⟩, direction := ⟨0,1,0⟩, old_direction := some ⟨1,0,0⟩ }

def c4wb : Backtrack :=
  { chain := [1,1,1], cubesize := 2,
    head := { base := ⟨0,1,0⟩, direction := ⟨0,1,0⟩, old_direction := none },
    pos := 2, cube := [[[1,0],[4,0]],[[0,0],[0,0]]], paths := [] }

/-! ## Theorems -/

/-- Fuel monotonicity of the search loop: a finished run is stable under
more fuel. -/
theorem loopRun_mono : ∀ (fuel fuel' : Nat) (b : Backtrack)
    (path : List BacktrackHead) r, fuel ≤ fuel' →
    Backtrack.loopRun fuel b path = some r →
    Backtrack.loopRun fuel' b path = some r := by
  intro fuel
  induction fuel with
  | zero => intro fuel' b path r _ h; simp [Backtrack.loopRun] at h
  | succ n ih =>
    intro fuel' b path r hle h
    obtain ⟨m, rfl⟩ : ∃ m, fuel' = m + 1 := ⟨fuel' - 1, by omega⟩
    rw [Backtrack.loopRun] at h ⊢
    cases hs : b.loopStep path <;> rw [hs] at h <;> first
      | exact h
      | exact ih m _ _ _ (by omega) h

/-- Fuel monotonicity of `_backtrack`. -/
theorem backtrack_mono (fuel fuel' : Nat) (b : Backtrack) (r)
    (hle : fuel ≤ fuel') (h : b.backtrack fuel = some r) :
    b.backtrack fuel' = some r := by
  rw [Backtrack.backtrack] at h ⊢
  by_cases hp : b.pos = 0
  · rw [if_pos hp] at h ⊢
    exact loopRun_mono _ _ _ _ _ hle h
  · rw [if_neg hp] at h ⊢
    cases hl : b.paths.getLast? with
    | none => simp only [hl] at h; exact h
    | some last =>
      simp only [hl] at h
      show (match b.restoreStep last with
            | .error e => some (.error e)
            | .ok (b, path) => Backtrack.loopRun fuel' b path) = some r
      cases hr : b.restoreStep last with
      | error e => simp only [hr] at h; exact h
      | ok p =>
        simp only [hr] at h
        obtain ⟨b2, path2⟩ := p
        exact loopRun_mono _ _ _ _ _ hle h

/-- Fuel monotonicity of the solution-collecting loop of `solve`. -/
theorem solveLoop_mono : ∀ (outer outer' inner inner' : Nat) (b : Backtrack) r,
    inner ≤ inner' → outer ≤ outer' →
    Backtrack.solveLoop inner outer b = some r →
    Backtrack.solveLoop inner' outer' b = some r := by
  intro outer
  induction outer with
  | zero => intro outer' inner inner' b r _ _ h; simp [Backtrack.solveLoop] at h
  | succ n ih =>
    intro outer' inner inner' b r hi ho h
    obtain ⟨m, rfl⟩ : ∃ m, outer' = m + 1 := ⟨outer' - 1, by omega⟩
    rw [Backtrack.solveLoop] at h ⊢
    cases hb : b.backtrack inner with
    | none => rw [hb] at h; simp at h
    | some rb =>
      rw [hb] at h
      rw [backtrack_mono inner inner' b rb hi hb]
      match rb, h with
      | .error e, h => exact h
      | .ok (b2, none), h => exact h
      | .ok (b2, some path), h => exact ih m inner inner' _ _ hi (by omega) h

/-- Fuel monotonicity of `solve`. -/
theorem solve_mono (fuel fuel' : Nat) (hle : fuel ≤ fuel') (b : Backtrack) (r)
    (h : Backtrack.solve fuel b = some r) : Backtrack.solve fuel' b = some r := by
  rw [Backtrack.solve] at h ⊢
  by_cases hp : b.paths = []
  · rw [if_pos hp] at h ⊢
    cases hs : Backtrack.solveLoop fuel fuel b with
    | none => rw [hs] at h; simp at h
    | some rs =>
      rw [hs] at h
      rw [solveLoop_mono fuel fuel' fuel fuel' b rs hle hle hs]
      exact h
  · rw [if_neg hp] at h ⊢
    exact h

/-- Helper for C10: with an empty chain `solve`'s loop keeps collecting the
empty solution and never returns, whatever the fuel. -/
theorem solveLoop_empty_chain_none :
    ∀ (outer inner : Nat) (b : Backtrack), b.chain = [] → b.pos = 0 →
    Backtrack.solveLoop inner outer b = none := by
  intro outer
  induction outer with
  | zero => intro inner b _ _; rfl
  | succ n ih =>
    intro inner b hc hp
    rw [Backtrack.solveLoop]
    cases inner with
    | zero =>
      have h0 : b.backtrack 0 = none := by
        rw [Backtrack.backtrack, if_pos hp]; rfl
      rw [h0]
    | succ m =>
      have hstep : (b.cube_set_offset 0 POS_USED).loopStep [] = .done [] := by
        rw [Backtrack.loopStep, if_neg]
        simp [Backtrack.cube_set_offset, hc, hp]
      have hb : b.backtrack (m + 1) =
          some (.ok (b.cube_set_offset 0 POS_USED, some [])) := by
        rw [Backtrack.backtrack, if_pos hp, Backtrack.loopRun, hstep]
      rw [hb]
      exact ih (m + 1) _ hc hp

/-! ### Basic lemmas about the embedded vector and cube operations -/

theorem Vector3D.add_def (a b : Vector3D) :
    a + b = ⟨a.x + b.x, a.y + b.y, a.z + b.z⟩ := rfl

theorem Vector3D.smul_def (n : Int) (v : Vector3D) :
    n * v = ⟨n * v.x, n * v.y, n * v.z⟩ := rfl

/-- `List.set` seen through `getD`. -/
theorem getD_set_eq_ite {α : Type} (l : List α) (i j : Nat) (v d : α) :
    (l.set i v).getD j d = if i = j ∧ i < l.length then v else l.getD j d := by
  rw [List.getD_eq_getElem?_getD, List.getD_eq_getElem?_getD, List.getElem?_set]
  by_cases hij : i = j
  · subst hij
    by_cases hl : i < l.length
    · simp [hl]
    · simp [hl, List.getElem?_eq_none (by omega : l.length ≤ i)]
  · simp [hij]

/-- The cube matrix cannot alias distinct in-cube cells. -/
theorem inCube_toNat_inj {s : Nat} {p c : Vector3D} (hp : inCube s p)
    (hc : inCube s c) (hx : p.x.toNat = c.x.toNat) (hy : p.y.toNat = c.y.toNat)
    (hz : p.z.toNat = c.z.toNat) : p = c := by
  obtain ⟨hp1, _, hp3, _, hp5, _⟩ := hp
  obtain ⟨hc1, _, hc3, _, hc5, _⟩ := hc
  have ex : p.x = c.x := by omega
  have ey : p.y = c.y := by omega
  have ez : p.z = c.z := by omega
  cases p; cases c; simp_all

/-- The `toNat` coordinates of an in-cube cell are strictly below `s`. -/
theorem inCube_toNat_lt {s : Nat} {p : Vector3D} (hp : inCube s p) :
    p.x.toNat < s ∧ p.y.toNat < s ∧ p.z.toNat < s := by
  obtain ⟨h1, h2, h3, h4, h5, h6⟩ := hp
  omega

/-- `cubeSet` preserves the dimensions of the cube matrix. -/
theorem cubeDims_cubeSet {s : Nat} {cube : Cube} (h : CubeDims s cube)
    (p : Vector3D) (v : Int) : CubeDims s (cubeSet cube p v) := by
  obtain ⟨h1, h2⟩ := h
  constructor
  · simp only [cubeSet, List.length_set]; exact h1
  · intro i hi
    simp only [cubeSet, getD_set_eq_ite]
    by_cases hcase : p.x.toNat = i ∧ p.x.toNat < cube.length
    · rw [if_pos hcase]
      obtain ⟨hplen, hprow⟩ := h2 i hi
      constructor
      · rw [List.length_set, hcase.1]
        exact hplen
      · intro j hj
        rw [getD_set_eq_ite]
        by_cases hcase2 : p.y.toNat = j ∧
            p.y.toNat < (cube.getD p.x.toNat []).length
        · rw [if_pos hcase2, List.length_set, hcase.1, hcase2.1]
          exact hprow j hj
        · rw [if_neg hcase2, hcase.1]
          exact hprow j hj
    · rw [if_neg hcase]
      exact h2 i hi

/-- Setting an in-cube cell changes exactly that cell's value. -/
theorem cubeGet_cubeSet_self {s : Nat} {cube : Cube} {p : Vector3D} {v : Int}
    (hd : CubeDims s cube) (hp : inCube s p) : cubeGet (cubeSet cube p v) p = v := by
  obtain ⟨hx, hy, hz⟩ := inCube_toNat_lt hp
  obtain ⟨h1, h2⟩ := hd
  obtain ⟨hplen, hprow⟩ := h2 p.x.toNat hx
  simp only [cubeGet, cubeSet]
  rw [getD_set_eq_ite, if_pos ⟨rfl, by omega⟩]
  rw [getD_set_eq_ite, if_pos ⟨rfl, by rw [hplen]; exact hy⟩]
  rw [getD_set_eq_ite, if_pos ⟨rfl, by rw [hprow p.y.toNat hy]; exact hz⟩]

/-- Setting a cell leaves every other in-cube cell's value unchanged. -/
theorem cubeGet_cubeSet_ne {s : Nat} {cube : Cube} {p c : Vector3D} {v : Int}
    (hd : CubeDims s cube) (hp : inCube s p) (hc : inCube s c) (hne : c ≠ p) :
    cubeGet (cubeSet cube p v) c = cubeGet cube c := by
  have hnat : p.x.toNat ≠ c.x.toNat ∨ p.y.toNat ≠ c.y.toNat ∨
      p.z.toNat ≠ c.z.toNat := by
    by_contra hcon
    push_neg at hcon
    exact hne (inCube_toNat_inj hp hc hcon.1 hcon.2.1 hcon.2.2).symm
  simp only [cubeGet, cubeSet]
  rw [getD_set_eq_ite]
  by_cases e1 : p.x.toNat = c.x.toNat ∧ p.x.toNat < cube.length
  · rw [if_pos e1]
    rw [show p.x.toNat = c.x.toNat from e1.1]
    rw [getD_set_eq_ite]
    by_cases e2 : p.y.toNat = c.y.toNat ∧
        p.y.toNat < (cube.getD c.x.toNat []).length
    · rw [if_pos e2]
      rw [show p.y.toNat = c.y.toNat from e2.1]
      rw [getD_set_eq_ite]
      rw [if_neg]
      intro hcl
      rcases hnat with hnx | hny | hnz
      · exact hnx e1.1
      · exact hny e2.1
      · exact hnz hcl.1
    · rw [if_neg e2]
  · rw [if_neg e1]

/-- After any `cubeSet`, a cell's value is the written value or its old one. -/
theorem cubeGet_cubeSet_or (cube : Cube) (p c : Vector3D) (v : Int) :
    cubeGet (cubeSet cube p v) c = v ∨
    cubeGet (cubeSet cube p v) c = cubeGet cube c := by
  simp only [cubeGet, cubeSet]
  rw [getD_set_eq_ite]
  by_cases e1 : p.x.toNat = c.x.toNat ∧ p.x.toNat < cube.length
  · rw [if_pos e1, show p.x.toNat = c.x.toNat from e1.1]
    rw [getD_set_eq_ite]
    by_cases e2 : p.y.toNat = c.y.toNat ∧
        p.y.toNat < (cube.getD c.x.toNat []).length
    · rw [if_pos e2, show p.y.toNat = c.y.toNat from e2.1]
      rw [getD_set_eq_ite]
      by_cases e3 : p.z.toNat = c.z.toNat ∧
          p.z.toNat < ((cube.getD c.x.toNat []).getD c.y.toNat []).length
      · rw [if_pos e3]; left; rfl
      · rw [if_neg e3]; right; rfl
    · rw [if_neg e2]; right; rfl
  · rw [if_neg e1]; right; rfl

/-! ### markRange and cube-offset lemmas -/

theorem cube_set_offset_cube (b : Backtrack) (o v : Int) :
    (b.cube_set_offset o v).cube =
      cubeSet b.cube (b.head.base + o * b.head.direction) v := rfl

/-- The cube-marking loops only touch the cube matrix. -/
theorem foldl_cso_fields (v : Int) : ∀ (l : List Nat) (b : Backtrack),
    (l.foldl (fun b i => b.cube_set_offset (i : Int) v) b).chain = b.chain ∧
    (l.foldl (fun b i => b.cube_set_offset (i : Int) v) b).cubesize = b.cubesize ∧
    (l.foldl (fun b i => b.cube_set_offset (i : Int) v) b).head = b.head ∧
    (l.foldl (fun b i => b.cube_set_offset (i : Int) v) b).pos = b.pos ∧
    (l.foldl (fun b i => b.cube_set_offset (i : Int) v) b).paths = b.paths := by
  intro l
  induction l with
  | nil => intro b; exact ⟨rfl, rfl, rfl, rfl, rfl⟩
  | cons i rest ih =>
    intro b
    rw [List.foldl_cons]
    exact ih (b.cube_set_offset (i : Int) v)

theorem foldl_cso_dims (v : Int) : ∀ (l : List Nat) (b : Backtrack),
    CubeDims b.cubesize b.cube →
    CubeDims b.cubesize
      ((l.foldl (fun b i => b.cube_set_offset (i : Int) v) b).cube) := by
  intro l
  induction l with
  | nil => intro b hd; exact hd
  | cons i rest ih =>
    intro b hd
    rw [List.foldl_cons]
    exact ih _ (cubeDims_cubeSet hd _ _)

theorem foldl_cso_get_notmem (v : Int) : ∀ (l : List Nat) (b : Backtrack)
    (c : Vector3D), CubeDims b.cubesize b.cube →
    (∀ i ∈ l, inCube b.cubesize (b.head.base + (i : Int) * b.head.direction)) →
    inCube b.cubesize c →
    (∀ i ∈ l, c ≠ b.head.base + (i : Int) * b.head.direction) →
    cubeGet ((l.foldl (fun b i => b.cube_set_offset (i : Int) v) b).cube) c =
      cubeGet b.cube c := by
  intro l
  induction l with
  | nil => intro b c _ _ _ _; rfl
  | cons i rest ih =>
    intro b c hd hwin hc hnot
    rw [List.foldl_cons]
    have h1 : cubeGet ((b.cube_set_offset (i : Int) v).cube) c = cubeGet b.cube c := by
      rw [cube_set_offset_cube]
      exact cubeGet_cubeSet_ne hd (hwin i (by simp)) hc (hnot i (by simp))
    rw [← h1]
    exact ih (b.cube_set_offset (i : Int) v) c
      (cubeDims_cubeSet hd _ _)
      (fun j hj => hwin j (by simp [hj]))
      hc
      (fun j hj => hnot j (by simp [hj]))

theorem foldl_cso_get_mem (v : Int) : ∀ (l : List Nat) (b : Backtrack)
    (c : Vector3D), CubeDims b.cubesize b.cube →
    (∀ i ∈ l, inCube b.cubesize (b.head.base + (i : Int) * b.head.direction)) →
    inCube b.cubesize c →
    (∃ i ∈ l, c = b.head.base + (i : Int) * b.head.direction) →
    cubeGet ((l.foldl (fun b i => b.cube_set_offset (i : Int) v) b).cube) c = v := by
  intro l
  induction l with
  | nil => intro b c _ _ _ hmem; simp at hmem
  | cons i rest ih =>
    intro b c hd hwin hc hmem
    rw [List.foldl_cons]
    by_cases hrest : ∃ j ∈ rest, c = b.head.base + (j : Int) * b.head.direction
    · exact ih (b.cube_set_offset (i : Int) v) c (cubeDims_cubeSet hd _ _)
        (fun j hj => hwin j (by simp [hj])) hc hrest
    · push_neg at hrest
      have hci : c = b.head.base + (i : Int) * b.head.direction := by
        rcases hmem with ⟨j, hj, hcj⟩
        rcases List.mem_cons.mp hj with rfl | hj'
        · exact hcj
        · exact absurd hcj (hrest j hj')
      have h1 : cubeGet ((b.cube_set_offset (i : Int) v).cube) c = v := by
        rw [cube_set_offset_cube, hci]
        exact cubeGet_cubeSet_self hd (hwin i (by simp))
      exact (foldl_cso_get_notmem v rest (b.cube_set_offset (i : Int) v) c
        (cubeDims_cubeSet hd _ _) (fun j hj => hwin j (by simp [hj])) hc
        (fun j hj => hrest j hj)).trans h1

theorem foldl_cso_get_or (v : Int) : ∀ (l : List Nat) (b : Backtrack)
    (c : Vector3D),
    cubeGet ((l.foldl (fun b i => b.cube_set_offset (i : Int) v) b).cube) c = v ∨
    cubeGet ((l.foldl (fun b i => b.cube_set_offset (i : Int) v) b).cube) c =
      cubeGet b.cube c := by
  intro l
  induction l with
  | nil => intro b c; right; rfl
  | cons i rest ih =>
    intro b c
    rw [List.foldl_cons]
    rcases ih (b.cube_set_offset (i : Int) v) c with h | h
    · left; exact h
    · rw [h, cube_set_offset_cube]
      exact cubeGet_cubeSet_or b.cube _ c v

theorem markRange_chain (b : Backtrack) (lo hi : Nat) (v : Int) :
    (b.markRange lo hi v).chain = b.chain :=
  (foldl_cso_fields v (List.range' lo (hi - lo)) b).1

theorem markRange_cubesize (b : Backtrack) (lo hi : Nat) (v : Int) :
    (b.markRange lo hi v).cubesize = b.cubesize :=
  (foldl_cso_fields v (List.range' lo (hi - lo)) b).2.1

theorem markRange_head (b : Backtrack) (lo hi : Nat) (v : Int) :
    (b.markRange lo hi v).head = b.head :=
  (foldl_cso_fields v (List.range' lo (hi - lo)) b).2.2.1

theorem markRange_pos (b : Backtrack) (lo hi : Nat) (v : Int) :
    (b.markRange lo hi v).pos = b.pos :=
  (foldl_cso_fields v (List.range' lo (hi - lo)) b).2.2.2.1

theorem markRange_paths (b : Backtrack) (lo hi : Nat) (v : Int) :
    (b.markRange lo hi v).paths = b.paths :=
  (foldl_cso_fields v (List.range' lo (hi - lo)) b).2.2.2.2

theorem markRange_dims (b : Backtrack) (lo hi : Nat) (v : Int)
    (hd : CubeDims b.cubesize b.cube) :
    CubeDims b.cubesize ((b.markRange lo hi v).cube) :=
  foldl_cso_dims v (List.range' lo (hi - lo)) b hd

theorem markRange_get_mem (b : Backtrack) (lo hi : Nat) (v : Int) (c : Vector3D)
    (hd : CubeDims b.cubesize b.cube)
    (hwin : ∀ i, lo ≤ i → i < hi →
      inCube b.cubesize (b.head.base + (i : Int) * b.head.direction))
    (hc : inCube b.cubesize c)
    (hmem : ∃ i, lo ≤ i ∧ i < hi ∧
      c = b.head.base + (i : Int) * b.head.direction) :
    cubeGet (b.markRange lo hi v).cube c = v := by
  apply foldl_cso_get_mem v (List.range' lo (hi - lo)) b c hd
  · intro i hi2
    have := List.mem_range'_1.mp hi2
    exact hwin i this.1 (by omega)
  · exact hc
  · rcases hmem with ⟨i, h1, h2, h3⟩
    exact ⟨i, List.mem_range'_1.mpr ⟨h1, by omega⟩, h3⟩

theorem markRange_get_notmem (b : Backtrack) (lo hi : Nat) (v : Int)
    (c : Vector3D) (hd : CubeDims b.cubesize b.cube)
    (hwin : ∀ i, lo ≤ i → i < hi →
      inCube b.cubesize (b.head.base + (i : Int) * b.head.direction))
    (hc : inCube b.cubesize c)
    (hnot : ∀ i, lo ≤ i → i < hi →
      c ≠ b.head.base + (i : Int) * b.head.direction) :
    cubeGet (b.markRange lo hi v).cube c = cubeGet b.cube c := by
  apply foldl_cso_get_notmem v (List.range' lo (hi - lo)) b c hd
  · intro i hi2
    have := List.mem_range'_1.mp hi2
    exact hwin i this.1 (by omega)
  · exact hc
  · intro i hi2
    have := List.mem_range'_1.mp hi2
    exact hnot i this.1 (by omega)

theorem markRange_get_or (b : Backtrack) (lo hi : Nat) (v : Int) (c : Vector3D) :
    cubeGet (b.markRange lo hi v).cube c = v ∨
    cubeGet (b.markRange lo hi v).cube c = cubeGet b.cube c :=
  foldl_cso_get_or v (List.range' lo (hi - lo)) b c

theorem nstepsAux_spec (b : Backtrack) : ∀ (fuel n0 : Nat),
    (∀ j, 1 ≤ j → j ≤ n0 →
      nstepsGuard b j ∧ b.cube_get_offset (j : Int) = POS_FREE) →
    ∀ j, 1 ≤ j → j ≤ b.nstepsAux fuel n0 →
      nstepsGuard b j ∧ b.cube_get_offset (j : Int) = POS_FREE := by
  intro fuel
  induction fuel with
  | zero => intro n0 hacc j h1 h2; exact hacc j h1 h2
  | succ m ih =>
    intro n0 hacc j h1 h2
    rw [Backtrack.nstepsAux] at h2
    split at h2
    next hsign =>
      split at h2
      next hcond =>
        refine ih (n0 + 1) ?_ j h1 h2
        intro j' hj1 hj2
        rcases Nat.lt_or_ge j' (n0 + 1) with hlt | hge
        · exact hacc j' hj1 (by omega)
        · have hj' : j' = n0 + 1 := by omega
          subst hj'
          refine ⟨?_, ?_⟩
          · rw [nstepsGuard, if_pos hsign]
            push_cast
            exact_mod_cast hcond.1
          · push_cast
            exact_mod_cast hcond.2
      next => exact hacc j h1 h2
    next hsign =>
      split at h2
      next hcond =>
        refine ih (n0 + 1) ?_ j h1 h2
        intro j' hj1 hj2
        rcases Nat.lt_or_ge j' (n0 + 1) with hlt | hge
        · exact hacc j' hj1 (by omega)
        · have hj' : j' = n0 + 1 := by omega
          subst hj'
          refine ⟨?_, ?_⟩
          · rw [nstepsGuard, if_neg hsign]
            push_cast
            exact_mod_cast hcond.1
          · push_cast
            exact_mod_cast hcond.2
      next => exact hacc j h1 h2

theorem nsteps_spec (b : Backtrack) (j : Nat) (h1 : 1 ≤ j) (h2 : j ≤ b.nsteps) :
    nstepsGuard b j ∧ b.cube_get_offset (j : Int) = POS_FREE :=
  nstepsAux_spec b b.cubesize 0 (by omega) j h1 h2

/-! ### Lookup-table and head-operation lemmas -/

theorem getD_mem {α : Type} {l : List α} {n : Nat} {d : α} (h : n < l.length) :
    l.getD n d ∈ l := by
  rw [List.getD_eq_getElem?_getD, List.getElem?_eq_getElem h]
  exact List.getElem_mem h

/-- A successful dict lookup means the key is one of the six directions. -/
theorem jointDirectionsGet_key_mem {v : Vector3D} {lst : List Vector3D}
    (h : jointDirectionsGet v = some lst) :
    v = ⟨1,0,0⟩ ∨ v = ⟨-1,0,0⟩ ∨ v = ⟨0,1,0⟩ ∨ v = ⟨0,-1,0⟩ ∨
    v = ⟨0,0,1⟩ ∨ v = ⟨0,0,-1⟩ := by
  rw [jointDirectionsGet] at h
  rcases hf : jointDirectionsEntries.find? (fun e => e.1 = v) with _ | e
  · rw [hf] at h; cases h
  · have hmem := List.mem_of_find?_eq_some hf
    have hpred := List.find?_some hf
    have he : e.1 = v := by simpa using hpred
    have hin : e.1 ∈ jointDirectionsEntries.map Prod.fst :=
      List.mem_map_of_mem Prod.fst hmem
    have hkeys : jointDirectionsEntries.map Prod.fst =
        [⟨1,0,0⟩, ⟨-1,0,0⟩, ⟨0,1,0⟩, ⟨0,-1,0⟩, ⟨0,0,1⟩, ⟨0,0,-1⟩] := by decide
    rw [hkeys, he] at hin
    simpa using hin

/-- A successful dict lookup hands back one of the three `newDirections`
lists: five entries, all of them base directions. -/
theorem jointDirectionsGet_values {v : Vector3D} {lst : List Vector3D}
    (h : jointDirectionsGet v = some lst) :
    lst.length = 5 ∧ ∀ u ∈ lst, u ∈ baseDirections := by
  rcases jointDirectionsGet_key_mem h with rfl | rfl | rfl | rfl | rfl | rfl
  · rw [show jointDirectionsGet ⟨1,0,0⟩ = some (mkNewDirections 0) from rfl] at h
    injection h with h
    subst h
    decide
  · rw [show jointDirectionsGet ⟨-1,0,0⟩ = some (mkNewDirections 0) from rfl] at h
    injection h with h
    subst h
    decide
  · rw [show jointDirectionsGet ⟨0,1,0⟩ = some (mkNewDirections 1) from rfl] at h
    injection h with h
    subst h
    decide
  · rw [show jointDirectionsGet ⟨0,-1,0⟩ = some (mkNewDirections 1) from rfl] at h
    injection h with h
    subst h
    decide
  · rw [show jointDirectionsGet ⟨0,0,1⟩ = some (mkNewDirections 2) from rfl] at h
    injection h with h
    subst h
    decide
  · rw [show jointDirectionsGet ⟨0,0,-1⟩ = some (mkNewDirections 2) from rfl] at h
    injection h with h
    subst h
    decide

/-- The key of a successful lookup is a base direction. -/
theorem jointDirectionsGet_key_base {v : Vector3D} {lst : List Vector3D}
    (h : jointDirectionsGet v = some lst) : v ∈ baseDirections := by
  rcases jointDirectionsGet_key_mem h with rfl | rfl | rfl | rfl | rfl | rfl <;> decide

/-- What a successful `change_direction` does. -/
theorem change_direction_eq {h h' : BacktrackHead}
    (hcd : h.change_direction = some h') :
    ∃ lst, jointDirectionsGet h.direction = some lst ∧
      h' = { base := h.base, direction := lst.getD 0 ⟨0,0,0⟩,
             old_direction := some h.direction } := by
  rw [BacktrackHead.change_direction] at hcd
  rcases hj : jointDirectionsGet h.direction with _ | lst
  · rw [hj] at hcd; cases hcd
  · rw [hj] at hcd
    refine ⟨lst, rfl, ?_⟩
    have := Option.some.inj hcd
    exact this.symm

/-- What a successful `rotate_to` does. -/
theorem rotate_to_ok_eq {h h' : BacktrackHead} {js : Int}
    (hr : h.rotate_to js = .ok h') :
    ∃ od lst, h.old_direction = some od ∧ jointDirectionsGet od = some lst ∧
      js.toNat < lst.length ∧
      h' = { h with direction := lst.getD js.toNat ⟨0,0,0⟩ } := by
  rw [BacktrackHead.rotate_to] at hr
  split at hr
  next hod => cases hr
  next od hod =>
    split at hr
    next => cases hr
    next lst hj =>
      split at hr
      next hidx => exact ⟨od, lst, hod, hj, hidx, (Except.ok.inj hr).symm⟩
      next => cases hr

/-- A base direction is not the zero vector. -/
theorem baseDirections_ne_zero {d : Vector3D} (h : d ∈ baseDirections) :
    d ≠ ⟨0,0,0⟩ := by
  fin_cases h <;> decide

/-! ### Geometry lemmas -/

theorem mem_sliceCells {h : BacktrackHead} {n : Nat} {c : Vector3D} :
    c ∈ sliceCells h n ↔
    ∃ j : Nat, 1 ≤ j ∧ j ≤ n ∧ c = h.base + (j : Int) * h.direction := by
  rw [sliceCells, List.mem_map]
  constructor
  · rintro ⟨j, hj, rfl⟩
    rw [List.mem_range] at hj
    exact ⟨j + 1, by omega, by omega, by push_cast; ring_nf⟩
  · rintro ⟨j, h1, h2, rfl⟩
    refine ⟨j - 1, List.mem_range.mpr (by omega), ?_⟩
    have : ((j - 1 : Nat) : Int) + 1 = (j : Int) := by omega
    rw [this]

theorem sliceCells_nodup (h : BacktrackHead) (n : Nat)
    (hdir : h.direction ≠ ⟨0,0,0⟩) : (sliceCells h n).Nodup := by
  rw [sliceCells]
  refine List.Nodup.map ?_ (List.nodup_range n)
  intro a b hab
  have hx := congrArg Vector3D.x hab
  have hy := congrArg Vector3D.y hab
  have hz := congrArg Vector3D.z hab
  simp only [Vector3D.add_def, Vector3D.smul_def] at hx hy hz
  have hcomp : h.direction.x ≠ 0 ∨ h.direction.y ≠ 0 ∨ h.direction.z ≠ 0 := by
    by_contra hc
    push_neg at hc
    exact hdir (by cases hd : h.direction; simp_all)
  rcases hcomp with hco | hco | hco
  · have : ((a : Int) + 1) = ((b : Int) + 1) := by
      have := mul_right_cancel₀ hco (by linarith [hx] : ((a : Int) + 1) * h.direction.x = ((b : Int) + 1) * h.direction.x)
      omega
    omega
  · have : ((a : Int) + 1) = ((b : Int) + 1) := by
      have := mul_right_cancel₀ hco (by linarith [hy] : ((a : Int) + 1) * h.direction.y = ((b : Int) + 1) * h.direction.y)
      omega
    omega
  · have : ((a : Int) + 1) = ((b : Int) + 1) := by
      have := mul_right_cancel₀ hco (by linarith [hz] : ((a : Int) + 1) * h.direction.z = ((b : Int) + 1) * h.direction.z)
      omega
    omega

theorem EndOf_mem_sliceCells (h : BacktrackHead) (n : Nat) (hn : 1 ≤ n) :
    EndOf h n ∈ sliceCells h n :=
  mem_sliceCells.mpr ⟨n, hn, le_refl n, rfl⟩

theorem Vector3D.mk_x (a b c : Int) : (Vector3D.mk a b c).x = a := rfl

theorem Vector3D.mk_y (a b c : Int) : (Vector3D.mk a b c).y = b := rfl

theorem Vector3D.mk_z (a b c : Int) : (Vector3D.mk a b c).z = c := rfl

/-- Inside the `_nsteps` bound check, walking `j` cells from an in-cube
base along a base direction stays in the cube. -/
theorem nstepsGuard_incube (b : Backtrack)
    (hd : b.head.direction ∈ baseDirections)
    (hb : inCube b.cubesize b.head.base) (j : Nat)
    (hg : nstepsGuard b j) :
    inCube b.cubesize (b.head.base + (j : Int) * b.head.direction) := by
  rw [nstepsGuard] at hg
  obtain ⟨hx0, hx1, hy0, hy1, hz0, hz1⟩ := hb
  have hd6 := hd
  simp only [baseDirections, List.mem_cons, List.not_mem_nil, or_false] at hd6
  have hj0 : (0 : Int) ≤ (j : Int) := by positivity
  rcases hd6 with hdir | hdir | hdir | hdir | hdir | hdir
  · have hsign : b.head.get_sign = 1 := by
      simp [BacktrackHead.get_sign, hdir]
    rw [if_pos hsign] at hg
    simp only [hdir, Vector3D.add_def, Vector3D.smul_def, inCube,
      Vector3D.mk_x, Vector3D.mk_y, Vector3D.mk_z] at hg ⊢
    rw [max_lt_iff, max_lt_iff] at hg
    exact ⟨by omega, by omega, by omega, by omega, by omega, by omega⟩
  · have hsign : b.head.get_sign = 1 := by
      simp [BacktrackHead.get_sign, hdir]
    rw [if_pos hsign] at hg
    simp only [hdir, Vector3D.add_def, Vector3D.smul_def, inCube,
      Vector3D.mk_x, Vector3D.mk_y, Vector3D.mk_z] at hg ⊢
    rw [max_lt_iff, max_lt_iff] at hg
    exact ⟨by omega, by omega, by omega, by omega, by omega, by omega⟩
  · have hsign : b.head.get_sign = 1 := by
      simp [BacktrackHead.get_sign, hdir]
    rw [if_pos hsign] at hg
    simp only [hdir, Vector3D.add_def, Vector3D.smul_def, inCube,
      Vector3D.mk_x, Vector3D.mk_y, Vector3D.mk_z] at hg ⊢
    rw [max_lt_iff, max_lt_iff] at hg
    exact ⟨by omega, by omega, by omega, by omega, by omega, by omega⟩
  · have hsign : ¬ b.head.get_sign = 1 := by
      simp [BacktrackHead.get_sign, hdir]
    rw [if_neg hsign] at hg
    simp only [hdir, Vector3D.add_def, Vector3D.smul_def, inCube,
      Vector3D.mk_x, Vector3D.mk_y, Vector3D.mk_z] at hg ⊢
    rw [le_min_iff, le_min_iff] at hg
    exact ⟨by omega, by omega, by omega, by omega, by omega, by omega⟩
  · have hsign : ¬ b.head.get_sign = 1 := by
      simp [BacktrackHead.get_sign, hdir]
    rw [if_neg hsign] at hg
    simp only [hdir, Vector3D.add_def, Vector3D.smul_def, inCube,
      Vector3D.mk_x, Vector3D.mk_y, Vector3D.mk_z] at hg ⊢
    rw [le_min_iff, le_min_iff] at hg
    exact ⟨by omega, by omega, by omega, by omega, by omega, by omega⟩
  · have hsign : ¬ b.head.get_sign = 1 := by
      simp [BacktrackHead.get_sign, hdir]
    rw [if_neg hsign] at hg
    simp only [hdir, Vector3D.add_def, Vector3D.smul_def, inCube,
      Vector3D.mk_x, Vector3D.mk_y, Vector3D.mk_z] at hg ⊢
    rw [le_min_iff, le_min_iff] at hg
    exact ⟨by omega, by omega, by omega, by omega, by omega, by omega⟩

/-! ### Sweep and link lemmas -/

theorem getD_tail {α : Type} (l : List α) (n : Nat) (d : α) :
    l.tail.getD n d = l.getD (n + 1) d := by
  cases l <;> rfl

theorem sweepTail_append : ∀ (path : List BacktrackHead) (chain : List Nat)
    (h : BacktrackHead),
    sweepTail chain (path ++ [h]) =
      sweepTail chain path ++ sliceCells h (chain.getD path.length 0) := by
  intro path
  induction path with
  | nil => intro chain h; simp [sweepTail]
  | cons h0 rest ih =>
    intro chain h
    show sliceCells h0 (chain.getD 0 0) ++ sweepTail chain.tail (rest ++ [h]) = _
    rw [ih chain.tail h, getD_tail]
    simp [sweepTail, List.append_assoc]

theorem occCellsF_append (chain : List Nat) (path : List BacktrackHead)
    (h : BacktrackHead) (hb : Vector3D) :
    occCellsF chain (path ++ [h]) hb =
      occCellsF chain path h.base ++ sliceCells h (chain.getD path.length 0) := by
  cases path with
  | nil => simp [occCellsF, pathSweep, sweepTail]
  | cons h0 rest =>
    show h0.base :: sweepTail chain ((h0 :: rest) ++ [h]) =
      (h0.base :: sweepTail chain (h0 :: rest)) ++
        sliceCells h (chain.getD (h0 :: rest).length 0)
    rw [sweepTail_append (h0 :: rest) chain h]
    rfl

theorem Links_append (chain : List Nat) (path : List BacktrackHead)
    (h : BacktrackHead) (hb : Vector3D) :
    Links chain (path ++ [h]) hb ↔
      (Links chain path h.base ∧ hb = EndOf h (chain.getD path.length 0)) := by
  constructor
  · intro H
    constructor
    · intro k hk
      have hk2 : k < (path ++ [h]).length := by
        simp only [List.length_append, List.length_cons, List.length_nil]
        omega
      have := H k hk2
      rw [List.getD_append _ _ _ _ hk] at this
      split at this
      next hcond =>
        exfalso
        have hlen2 : (path ++ [h]).length = path.length + 1 := by simp
        omega
      next hcond =>
        by_cases hlast : k + 1 = path.length
        · rw [if_pos hlast]
          rw [List.getD_append_right _ _ _ _ (by omega)] at this
          have hz : k + 1 - path.length = 0 := by omega
          rw [hz] at this
          simpa using this
        · rw [if_neg hlast]
          rw [List.getD_append _ _ _ _ (by omega)] at this
          exact this
    · have hk2 : path.length < (path ++ [h]).length := by
        simp only [List.length_append, List.length_cons, List.length_nil]
        omega
      have := H path.length hk2
      split at this
      next hcond =>
        rw [List.getD_append_right _ _ _ _ (le_refl _)] at this
        simpa using this
      next hcond =>
        exfalso
        have hlen2 : (path ++ [h]).length = path.length + 1 := by simp
        omega
  · rintro ⟨H1, H2⟩
    intro k hk
    simp only [List.length_append, List.length_cons, List.length_nil] at hk
    split
    next hcond =>
      have hkeq : k = path.length := by
        have hlen2 : (path ++ [h]).length = path.length + 1 := by simp
        omega
      subst hkeq
      rw [List.getD_append_right _ _ _ _ (le_refl _)]
      simpa using H2
    next hcond =>
      have hklt : k < path.length := by
        have hlen2 : (path ++ [h]).length = path.length + 1 := by simp
        omega
      rw [List.getD_append _ _ _ _ hklt]
      have := H1 k hklt
      by_cases hlast : k + 1 = path.length
      · rw [if_pos hlast] at this
        rw [List.getD_append_right _ _ _ _ (by omega)]
        have hz : k + 1 - path.length = 0 := by omega
        rw [hz]
        simpa using this
      · rw [if_neg hlast] at this
        rw [List.getD_append _ _ _ _ (by omega)]
        exact this

theorem headBase_mem_occCellsF (chain : List Nat) (path : List BacktrackHead)
    (hb : Vector3D) (hlink : Links chain path hb)
    (hchain : ∀ n ∈ chain, 0 < n) (hple : path.length ≤ chain.length) :
    hb ∈ occCellsF chain path hb := by
  rcases List.eq_nil_or_concat path with rfl | ⟨path', last, rfl⟩
  · simp [occCellsF]
  · simp only [List.concat_eq_append] at hlink hple ⊢
    rw [occCellsF_append]
    have hlen : path'.length < chain.length := by
      simp only [List.length_append, List.length_cons, List.length_nil] at hple
      omega
    obtain ⟨h1, h2⟩ := (Links_append chain path' last hb).mp hlink
    rw [List.mem_append]
    right
    rw [h2]
    exact EndOf_mem_sliceCells last _ (hchain _ (getD_mem hlen))

/-! ### Invariant-transport helpers -/

theorem offset_zero (p d : Vector3D) : p + (0 : Int) * d = p := by
  cases p; cases d
  simp [Vector3D.add_def, Vector3D.smul_def]

theorem base_ne_offset (p d : Vector3D) (i : Int) (hi : 1 ≤ i)
    (hd : d ≠ ⟨0,0,0⟩) : p + i * d ≠ p := by
  intro h
  have hx := congrArg Vector3D.x h
  have hy := congrArg Vector3D.y h
  have hz := congrArg Vector3D.z h
  simp only [Vector3D.add_def, Vector3D.smul_def, Vector3D.mk_x, Vector3D.mk_y,
    Vector3D.mk_z] at hx hy hz
  have hdx : d.x = 0 := by
    rcases mul_eq_zero.mp (by omega : i * d.x = 0) with h0 | h0
    · omega
    · exact h0
  have hdy : d.y = 0 := by
    rcases mul_eq_zero.mp (by omega : i * d.y = 0) with h0 | h0
    · omega
    · exact h0
  have hdz : d.z = 0 := by
    rcases mul_eq_zero.mp (by omega : i * d.z = 0) with h0 | h0
    · omega
    · exact h0
  exact hd (by cases d; simp_all)

/-- The invariant does not look at the head's direction, only its base. -/
theorem EngineInv_head_congr (b : Backtrack) (path : List BacktrackHead)
    (h' : BacktrackHead) (inv : EngineInv b path)
    (hbase : h'.base = b.head.base) : EngineInv { b with head := h' } path := by
  obtain ⟨h1, h2, h3, h4, h5, h6, h7, h8, h9, h10, h11⟩ := inv
  exact ⟨h1, h2, h3, by rw [show ({ b with head := h' } : Backtrack).head.base = h'.base from rfl, hbase]; exact h4,
    by rw [show ({ b with head := h' } : Backtrack).head.base = h'.base from rfl, hbase]; exact h5,
    h6, h7,
    by rw [show ({ b with head := h' } : Backtrack).head.base = h'.base from rfl, hbase]; exact h8,
    by rw [show ({ b with head := h' } : Backtrack).head.base = h'.base from rfl, hbase]; exact h9,
    by rw [show ({ b with head := h' } : Backtrack).head.base = h'.base from rfl, hbase]; exact h10,
    h11⟩

/-- Writing a non-free value at the head's cell preserves the invariant. -/
theorem EngineInv_set_base (b : Backtrack) (path : List BacktrackHead)
    (inv : EngineInv b path) (v : Int) (hvlo : POS_FREE < v) :
    EngineInv (b.cube_set_offset 0 v) path := by
  obtain ⟨h1, h2, h3, h4, h5, h6, h7, h8, h9, h10, h11⟩ := inv
  have hcell : b.head.base + (0 : Int) * b.head.direction = b.head.base :=
    offset_zero _ _
  have hbmem : b.head.base ∈ occCellsF b.chain path b.head.base :=
    headBase_mem_occCellsF b.chain path b.head.base h5 h7 (by omega)
  refine ⟨h1, h2, ?_, h4, h5, h6, h7, h8, h9, ?_, ?_⟩
  · show CubeDims b.cubesize (cubeSet b.cube _ v)
    exact cubeDims_cubeSet h3 _ v
  · intro c hc
    show cubeGet (cubeSet b.cube (b.head.base + (0:Int) * b.head.direction) v) c
      = POS_FREE ↔ _
    rw [hcell]
    by_cases hceq : c = b.head.base
    · subst hceq
      rw [cubeGet_cubeSet_self h3 h4]
      constructor
      · intro hfree
        exact absurd hfree (by rw [POS_FREE] at hvlo ⊢; omega)
      · intro hnot
        exact absurd hbmem hnot
    · rw [cubeGet_cubeSet_ne h3 h4 hc hceq]
      exact h10 c hc
  · intro c
    show POS_FREE ≤ cubeGet (cubeSet b.cube (b.head.base + (0:Int) * b.head.direction) v) c
    rcases cubeGet_cubeSet_or b.cube (b.head.base + (0:Int) * b.head.direction) c v
      with h | h
    · rw [h]; omega
    · rw [h]; exact h11 c

/-- The restore code of `_backtrack` (shared by its subsequent-run entry and
its wrapped-joint branch) preserves the search invariant when it succeeds. -/
theorem restoreStep_inv (b : Backtrack) (path : List BacktrackHead)
    (inv : EngineInv b path) (hpos1 : 1 ≤ b.pos)
    (b' : Backtrack) (path' : List BacktrackHead)
    (hok : b.restoreStep path = .ok (b', path')) :
    EngineInv b' path' ∧ b'.chain = b.chain ∧ b'.cubesize = b.cubesize ∧
    b'.paths = b.paths ∧ b'.pos = b.pos - 1 ∧ path' = path.dropLast := by
  have hne : path ≠ [] := by
    intro h
    have := inv.hlen
    rw [h] at this
    simp at this
    omega
  obtain ⟨A, popped, rfl⟩ : ∃ A popped, path = A ++ [popped] := by
    rcases List.eq_nil_or_concat path with h | ⟨A, popped, h⟩
    · exact absurd h hne
    · exact ⟨A, popped, by rw [h, List.concat_eq_append]⟩
  have hAlen : A.length = b.pos - 1 := by
    have := inv.hlen
    simp only [List.length_append, List.length_cons, List.length_nil] at this
    omega
  obtain ⟨hlinkA, hEnd⟩ := (Links_append b.chain A popped b.head.base).mp inv.hlink
  have hdirp : popped.direction ∈ baseDirections :=
    inv.hdirs popped (by simp)
  have hdirp0 : popped.direction ≠ ⟨0,0,0⟩ := baseDirections_ne_zero hdirp
  have hocc : occCellsF b.chain (A ++ [popped]) b.head.base =
      occCellsF b.chain A popped.base ++
        sliceCells popped (b.chain.getD A.length 0) :=
    occCellsF_append b.chain A popped b.head.base
  have hpbase_memA : popped.base ∈ occCellsF b.chain A popped.base :=
    headBase_mem_occCellsF b.chain A popped.base hlinkA inv.hchain
      (by have := inv.hple; omega)
  have hpbase_mem : popped.base ∈ occCellsF b.chain (A ++ [popped]) b.head.base := by
    rw [hocc, List.mem_append]
    exact Or.inl hpbase_memA
  have hpbase_incube : inCube b.cubesize popped.base :=
    inv.hincube _ hpbase_mem
  -- the cells freed by the markRange are exactly the popped slice's cells
  have hslice_sub : ∀ c ∈ sliceCells popped (b.chain.getD A.length 0),
      c ∈ occCellsF b.chain (A ++ [popped]) b.head.base := by
    intro c hc
    rw [hocc, List.mem_append]
    exact Or.inr hc
  have hsliceIn : ∀ c ∈ sliceCells popped (b.chain.getD A.length 0),
      inCube b.cubesize c := fun c hc => inv.hincube _ (hslice_sub c hc)
  -- unfold the restore code
  rw [Backtrack.restoreStep] at hok
  rw [List.getLast?_concat] at hok
  simp only [List.dropLast_concat] at hok
  split at hok
  next => exact absurd hok (by simp)
  next h1 hrot =>
    have hinj := Except.ok.inj hok
    have hb'eq := congrArg Prod.fst hinj
    have hpatheq := congrArg Prod.snd hinj
    simp only at hb'eq hpatheq
    set b1 : Backtrack := { b with pos := b.pos - 1, head := popped } with hb1
    set stp : Nat := b.chain.getD (b.pos - 1) 0 with hstp
    set b2 : Backtrack := b1.markRange 1 (stp + 1) POS_FREE with hb2
    set js : Int := b2.cube_get_offset 0 with hjs
    have hstpA : stp = b.chain.getD A.length 0 := by rw [hstp, hAlen]
    have hb2head : b2.head = popped := by
      rw [hb2]
      rw [markRange_head]
    have hb2chain : b2.chain = b.chain := by rw [hb2]; rw [markRange_chain]
    have hb2size : b2.cubesize = b.cubesize := by rw [hb2]; rw [markRange_cubesize]
    have hb2pos : b2.pos = b.pos - 1 := by rw [hb2]; rw [markRange_pos]
    have hb2paths : b2.paths = b.paths := by rw [hb2]; rw [markRange_paths]
    have hdims2 : CubeDims b.cubesize b2.cube := by
      rw [hb2]
      exact markRange_dims b1 1 (stp + 1) POS_FREE inv.hdims
    have hwin1 : ∀ i, 1 ≤ i → i < stp + 1 →
        inCube b1.cubesize (b1.head.base + (i : Int) * b1.head.direction) := by
      intro i h1i h2i
      have : b1.head.base + (i : Int) * b1.head.direction ∈
          sliceCells popped (b.chain.getD A.length 0) := by
        apply mem_sliceCells.mpr
        exact ⟨i, h1i, by omega, rfl⟩
      exact hsliceIn _ this
    have hfree2 : ∀ c ∈ sliceCells popped (b.chain.getD A.length 0),
        cubeGet b2.cube c = POS_FREE := by
      intro c hc
      rw [hb2]
      obtain ⟨j, hj1, hj2, hceq⟩ := mem_sliceCells.mp hc
      exact markRange_get_mem b1 1 (stp + 1) POS_FREE c inv.hdims hwin1
        (hsliceIn c hc) ⟨j, hj1, by omega, hceq⟩
    have hold2 : ∀ c, inCube b.cubesize c →
        c ∉ sliceCells popped (b.chain.getD A.length 0) →
        cubeGet b2.cube c = cubeGet b.cube c := by
      intro c hc hcnot
      rw [hb2]
      apply markRange_get_notmem b1 1 (stp + 1) POS_FREE c inv.hdims hwin1 hc
      intro i h1i h2i hceq
      exact hcnot (mem_sliceCells.mpr ⟨i, h1i, by omega, hceq⟩)
    have hpbase_notslice : popped.base ∉
        sliceCells popped (b.chain.getD A.length 0) := by
      intro hmem
      obtain ⟨j, hj1, _, hceq⟩ := mem_sliceCells.mp hmem
      exact base_ne_offset popped.base popped.direction (j : Int)
        (by exact_mod_cast hj1) hdirp0 hceq.symm
    have hjsval : js = cubeGet b.cube popped.base := by
      rw [hjs, Backtrack.cube_get_offset, hb2head, offset_zero]
      exact hold2 popped.base hpbase_incube hpbase_notslice
    have hjs_ge : POS_USED ≤ js := by
      have h1' : cubeGet b.cube popped.base ≠ POS_FREE := by
        intro hfree
        exact ((inv.hiff popped.base hpbase_incube).mp hfree) hpbase_mem
      have h2' : POS_FREE ≤ cubeGet b.cube popped.base := inv.hlo popped.base
      rw [hjsval, POS_USED]
      rw [POS_FREE] at h1' h2'
      omega
    obtain ⟨od, lst, hod, hlst, hidx, h1eq⟩ := rotate_to_ok_eq hrot
    have h1base : h1.base = popped.base := by rw [h1eq, hb2head]
    -- the invariant after freeing the popped slice and rotating the head
    have hnodA : (occCellsF b.chain A popped.base).Nodup := by
      have := inv.hnodup
      rw [hocc] at this
      exact (List.nodup_append.mp this).1
    have hdisj : (occCellsF b.chain A popped.base).Disjoint
        (sliceCells popped (b.chain.getD A.length 0)) := by
      have := inv.hnodup
      rw [hocc] at this
      exact (List.nodup_append.mp this).2.2
    have hinv3 : EngineInv { b2 with head := h1 } A := by
      refine ⟨?_, ?_, ?_, ?_, ?_, ?_, ?_, ?_, ?_, ?_, ?_⟩
      · show A.length = b2.pos
        rw [hb2pos, hAlen]
      · show b2.pos ≤ b2.chain.length
        rw [hb2pos, hb2chain]
        have := inv.hple
        omega
      · show CubeDims b2.cubesize b2.cube
        rw [hb2size]
        exact hdims2
      · show inCube b2.cubesize h1.base
        rw [hb2size, h1base]
        exact hpbase_incube
      · show Links b2.chain A h1.base
        rw [hb2chain, h1base]
        exact hlinkA
      · intro h hmem
        exact inv.hdirs h (by rw [List.mem_append]; exact Or.inl hmem)
      · show ∀ n ∈ b2.chain, 0 < n
        rw [hb2chain]
        exact inv.hchain
      · show (occCellsF b2.chain A h1.base).Nodup
        rw [hb2chain, h1base]
        exact hnodA
      · show ∀ c ∈ occCellsF b2.chain A h1.base, inCube b2.cubesize c
        rw [hb2chain, h1base, hb2size]
        intro c hc
        exact inv.hincube c (by rw [hocc, List.mem_append]; exact Or.inl hc)
      · show ∀ c, inCube b2.cubesize c →
          (cubeGet b2.cube c = POS_FREE ↔ c ∉ occCellsF b2.chain A h1.base)
        rw [hb2chain, h1base, hb2size]
        intro c hc
        by_cases hcs : c ∈ sliceCells popped (b.chain.getD A.length 0)
        · rw [hfree2 c hcs]
          simp only [eq_self_iff_true, true_iff]
          intro hcA
          exact hdisj hcA hcs
        · rw [hold2 c hc hcs]
          rw [inv.hiff c hc, hocc]
          simp only [List.mem_append]
          constructor
          · intro hnotin hcA
            exact hnotin (Or.inl hcA)
          · intro hnotA hor
            rcases hor with h | h
            · exact hnotA h
            · exact hcs h
      · intro c
        show POS_FREE ≤ cubeGet b2.cube c
        rw [hb2]
        rcases markRange_get_or b1 1 (stp + 1) POS_FREE c with h | h
        · rw [h]
        · rw [h]
          exact inv.hlo c
    have hinv4 := EngineInv_set_base { b2 with head := h1 } A hinv3 (js + 1)
      (by rw [POS_FREE]; rw [POS_USED] at hjs_ge; omega)
    refine ⟨?_, ?_, ?_, ?_, ?_, ?_⟩
    · rw [← hb'eq, ← hpatheq]
      exact hinv4
    · rw [← hb'eq]
      show b2.chain = b.chain
      exact hb2chain
    · rw [← hb'eq]
      show b2.cubesize = b.cubesize
      exact hb2size
    · rw [← hb'eq]
      show b2.paths = b.paths
      exact hb2paths
    · rw [← hb'eq]
      show b2.pos = b.pos - 1
      exact hb2pos
    · rw [← hpatheq, List.dropLast_concat]

/-- One loop iteration of `_backtrack` preserves the search invariant, and
a `done` exit hands back the unchanged path at full length. -/
theorem loopStep_inv (b : Backtrack) (path : List BacktrackHead)
    (inv : EngineInv b path) :
    (∀ b' path', b.loopStep path = .cont b' path' →
      EngineInv b' path' ∧ b'.chain = b.chain ∧ b'.cubesize = b.cubesize ∧
      b'.paths = b.paths) ∧
    (∀ path', b.loopStep path = .done path' →
      path' = path ∧ b.pos = b.chain.length) := by
  constructor
  · intro b' path' hstep
    rw [Backtrack.loopStep] at hstep
    by_cases hguard : b.pos < b.chain.length
    · rw [if_pos hguard] at hstep
      by_cases hw : b.joint_wrapped (b.cube_get_offset 0)
      · rw [if_neg (not_not_intro hw)] at hstep
        by_cases hp1 : b.pos = 1
        · rw [if_pos hp1] at hstep; cases hstep
        · rw [if_neg hp1] at hstep
          rcases hres : b.restoreStep path with e | bp
          · rw [hres] at hstep; cases hstep
          · rw [hres] at hstep
            obtain ⟨bb, pp⟩ := bp
            cases hstep
            have hnp : path ≠ [] := by
              intro h
              rw [h] at hres
              exact absurd hres (by simp [Backtrack.restoreStep])
            have hpos1 : 1 ≤ b.pos := by
              have := inv.hlen
              have := List.length_pos.mpr hnp
              omega
            obtain ⟨hi, hc, hs, hp, _, _⟩ :=
              restoreStep_inv b path inv hpos1 b' path' hres
            exact ⟨hi, hc, hs, hp⟩
      · rw [if_pos hw] at hstep
        by_cases hlt : b.nsteps < b.chain.getD b.pos 0
        · rw [if_pos hlt] at hstep
          rcases hrot : b.head.rotate_to ((b.cube_get_offset 0 + 1) % N_JNTS)
            with e | hh
          · rw [hrot] at hstep
            cases e <;> cases hstep
          · rw [hrot] at hstep
            cases hstep
            obtain ⟨od, lst, hod, hlst, hidx, hheq⟩ := rotate_to_ok_eq hrot
            have hhbase : hh.base = b.head.base := by rw [hheq]
            have hlo0 : POS_FREE ≤ b.cube_get_offset 0 :=
              inv.hlo (b.head.base + (0 : Int) * b.head.direction)
            refine ⟨?_, rfl, rfl, rfl⟩
            exact EngineInv_set_base { b with head := hh } path
              (EngineInv_head_congr b path hh inv hhbase)
              (b.cube_get_offset 0 + 1)
              (by rw [POS_FREE] at hlo0 ⊢; omega)
        · rw [if_neg hlt] at hstep
          push_neg at hlt
          dsimp only at hstep
          set nd : Nat := b.chain.getD b.pos 0 with hnd
          set bM1 : Backtrack := b.markRange 1 nd POS_USED with hbM1
          set bM : Backtrack := bM1.cube_set_offset (nd : Int) JOINT0 with hbM
          rcases hcd : (bM.head.move (nd : Int)).change_direction with _ | hh
          · rw [hcd] at hstep; cases hstep
          · rw [hcd] at hstep
            cases hstep
            have hbM1head : bM1.head = b.head := by
              rw [hbM1]; exact markRange_head b 1 nd POS_USED
            have hbMhead : bM.head = b.head := by
              rw [hbM]
              show bM1.head = b.head
              exact hbM1head
            rw [hbMhead] at hcd ⊢
            obtain ⟨lst, hlst0, hheq⟩ := change_direction_eq hcd
            have hmvdir : (b.head.move (nd : Int)).direction = b.head.direction := rfl
            have hmvbase : (b.head.move (nd : Int)).base =
                b.head.base + (nd : Int) * b.head.direction := rfl
            have hlst : jointDirectionsGet b.head.direction = some lst := by
              rw [← hmvdir]; exact hlst0
            have hd6 : b.head.direction ∈ baseDirections :=
              jointDirectionsGet_key_base hlst
            have hd0 : b.head.direction ≠ ⟨0,0,0⟩ := baseDirections_ne_zero hd6
            have hnd1 : 1 ≤ nd := by
              have : nd ∈ b.chain := by
                rw [hnd]
                exact getD_mem hguard
              exact inv.hchain nd this
            -- the slice's cells are in the cube and free
            have hslice_facts : ∀ j, 1 ≤ j → j ≤ nd →
                inCube b.cubesize (b.head.base + (j : Int) * b.head.direction) ∧
                b.cube_get_offset (j : Int) = POS_FREE := by
              intro j h1 h2
              obtain ⟨hg, hf⟩ := nsteps_spec b j h1 (by omega)
              exact ⟨nstepsGuard_incube b hd6 inv.hbase j hg, hf⟩
            have hslice_in : ∀ c ∈ sliceCells b.head nd, inCube b.cubesize c := by
              intro c hc
              obtain ⟨j, h1, h2, rfl⟩ := mem_sliceCells.mp hc
              exact (hslice_facts j h1 h2).1
            have hslice_free : ∀ c ∈ sliceCells b.head nd,
                cubeGet b.cube c = POS_FREE := by
              intro c hc
              obtain ⟨j, h1, h2, rfl⟩ := mem_sliceCells.mp hc
              exact (hslice_facts j h1 h2).2
            have hslice_notocc : ∀ c ∈ sliceCells b.head nd,
                c ∉ occCellsF b.chain path b.head.base := by
              intro c hc
              exact (inv.hiff c (hslice_in c hc)).mp (hslice_free c hc)
            have hocc' : occCellsF b.chain (path ++ [b.head]) hh.base =
                occCellsF b.chain path b.head.base ++ sliceCells b.head nd := by
              rw [occCellsF_append]
              rw [inv.hlen, ← hnd]
            have hcell_in : inCube b.cubesize
                (b.head.base + (nd : Int) * b.head.direction) :=
              (hslice_facts nd hnd1 (le_refl nd)).1
            have hwin1 : ∀ i, 1 ≤ i → i < nd →
                inCube b.cubesize (b.head.base + (i : Int) * b.head.direction) := by
              intro i h1 h2
              exact (hslice_facts i h1 (by omega)).1
            have hdimsM1 : CubeDims b.cubesize bM1.cube := by
              rw [hbM1]
              exact markRange_dims b 1 nd POS_USED inv.hdims
            -- value of cells after the two marking writes
            have hgetM : ∀ c, inCube b.cubesize c →
                cubeGet bM.cube c =
                  if c = b.head.base + (nd : Int) * b.head.direction then JOINT0
                  else if c ∈ sliceCells b.head nd then POS_USED
                  else cubeGet b.cube c := by
              intro c hc
              have hbMcube : bM.cube =
                  cubeSet bM1.cube (b.head.base + (nd : Int) * b.head.direction)
                    JOINT0 := by
                rw [hbM, cube_set_offset_cube, hbM1head]
              rw [hbMcube]
              by_cases hceq : c = b.head.base + (nd : Int) * b.head.direction
              · rw [if_pos hceq, hceq]
                exact cubeGet_cubeSet_self hdimsM1 hcell_in
              · rw [if_neg hceq]
                rw [cubeGet_cubeSet_ne hdimsM1 hcell_in hc hceq]
                by_cases hcs : c ∈ sliceCells b.head nd
                · rw [if_pos hcs, hbM1]
                  obtain ⟨j, h1, h2, rfl⟩ := mem_sliceCells.mp hcs
                  have hjlt : j < nd := by
                    rcases Nat.lt_or_ge j nd with h | h
                    · exact h
                    · exfalso
                      exact hceq (by rw [show j = nd by omega])
                  exact markRange_get_mem b 1 nd POS_USED _ inv.hdims hwin1
                    (hslice_in _ hcs) ⟨j, h1, hjlt, rfl⟩
                · rw [if_neg hcs, hbM1]
                  apply markRange_get_notmem b 1 nd POS_USED c inv.hdims hwin1 hc
                  intro i h1 h2 hceq2
                  exact hcs (mem_sliceCells.mpr ⟨i, h1, by omega, hceq2⟩)
            have hhbase : hh.base = b.head.base + (nd : Int) * b.head.direction := by
              rw [hheq]
              exact hmvbase
            refine ⟨?_, ?_, ?_, ?_⟩
            · refine ⟨?_, ?_, ?_, ?_, ?_, ?_, ?_, ?_, ?_, ?_, ?_⟩
              · show (path ++ [b.head]).length = bM.pos + 1
                have : bM.pos = b.pos := by
                  rw [hbM]
                  show bM1.pos = b.pos
                  rw [hbM1]; exact markRange_pos b 1 nd POS_USED
                rw [this]
                simp only [List.length_append, List.length_cons, List.length_nil]
                have := inv.hlen
                omega
              · show bM.pos + 1 ≤ bM.chain.length
                have h1' : bM.pos = b.pos := by
                  rw [hbM]; show bM1.pos = b.pos
                  rw [hbM1]; exact markRange_pos b 1 nd POS_USED
                have h2' : bM.chain = b.chain := by
                  rw [hbM]; show bM1.chain = b.chain
                  rw [hbM1]; exact markRange_chain b 1 nd POS_USED
                rw [h1', h2']
                omega
              · show CubeDims bM.cubesize bM.cube
                have h1' : bM.cubesize = b.cubesize := by
                  rw [hbM]; show bM1.cubesize = b.cubesize
                  rw [hbM1]; exact markRange_cubesize b 1 nd POS_USED
                rw [h1']
                have hbMcube : bM.cube =
                    cubeSet bM1.cube (b.head.base + (nd : Int) * b.head.direction)
                      JOINT0 := by
                  rw [hbM, cube_set_offset_cube, hbM1head]
                rw [hbMcube]
                exact cubeDims_cubeSet hdimsM1 _ _
              · show inCube bM.cubesize hh.base
                have h1' : bM.cubesize = b.cubesize := by
                  rw [hbM]; show bM1.cubesize = b.cubesize
                  rw [hbM1]; exact markRange_cubesize b 1 nd POS_USED
                rw [h1', hhbase]
                exact hcell_in
              · show Links bM.chain (path ++ [b.head]) hh.base
                have h2' : bM.chain = b.chain := by
                  rw [hbM]; show bM1.chain = b.chain
                  rw [hbM1]; exact markRange_chain b 1 nd POS_USED
                rw [h2']
                apply (Links_append b.chain path b.head hh.base).mpr
                refine ⟨inv.hlink, ?_⟩
                rw [hhbase, EndOf, inv.hlen, ← hnd]
              · intro h hmem
                rw [List.mem_append] at hmem
                rcases hmem with hmem | hmem
                · exact inv.hdirs h hmem
                · simp only [List.mem_cons, List.not_mem_nil, or_false] at hmem
                  rw [hmem]
                  exact hd6
              · show ∀ n ∈ bM.chain, 0 < n
                have h2' : bM.chain = b.chain := by
                  rw [hbM]; show bM1.chain = b.chain
                  rw [hbM1]; exact markRange_chain b 1 nd POS_USED
                rw [h2']
                exact inv.hchain
              · show (occCellsF bM.chain (path ++ [b.head]) hh.base).Nodup
                have h2' : bM.chain = b.chain := by
                  rw [hbM]; show bM1.chain = b.chain
                  rw [hbM1]; exact markRange_chain b 1 nd POS_USED
                rw [h2', hocc']
                rw [List.nodup_append]
                refine ⟨inv.hnodup, sliceCells_nodup b.head nd hd0, ?_⟩
                intro c hcA hcS
                exact hslice_notocc c hcS hcA
              · show ∀ c ∈ occCellsF bM.chain (path ++ [b.head]) hh.base,
                  inCube bM.cubesize c
                have h1' : bM.cubesize = b.cubesize := by
                  rw [hbM]; show bM1.cubesize = b.cubesize
                  rw [hbM1]; exact markRange_cubesize b 1 nd POS_USED
                have h2' : bM.chain = b.chain := by
                  rw [hbM]; show bM1.chain = b.chain
                  rw [hbM1]; exact markRange_chain b 1 nd POS_USED
                rw [h1', h2', hocc']
                intro c hc
                rw [List.mem_append] at hc
                rcases hc with hc | hc
                · exact inv.hincube c hc
                · exact hslice_in c hc
              · show ∀ c, inCube bM.cubesize c →
                  (cubeGet bM.cube c = POS_FREE ↔
                    c ∉ occCellsF bM.chain (path ++ [b.head]) hh.base)
                have h1' : bM.cubesize = b.cubesize := by
                  rw [hbM]; show bM1.cubesize = b.cubesize
                  rw [hbM1]; exact markRange_cubesize b 1 nd POS_USED
                have h2' : bM.chain = b.chain := by
                  rw [hbM]; show bM1.chain = b.chain
                  rw [hbM1]; exact markRange_chain b 1 nd POS_USED
                rw [h1', h2', hocc']
                intro c hc
                rw [hgetM c hc]
                by_cases hceq : c = b.head.base + (nd : Int) * b.head.direction
                · rw [if_pos hceq]
                  constructor
                  · intro hj
                    exact absurd hj (by rw [JOINT0, POS_FREE]; omega)
                  · intro hnot
                    exfalso
                    apply hnot
                    rw [List.mem_append]
                    right
                    rw [hceq]
                    exact mem_sliceCells.mpr ⟨nd, hnd1, le_refl nd, rfl⟩
                · rw [if_neg hceq]
                  by_cases hcs : c ∈ sliceCells b.head nd
                  · rw [if_pos hcs]
                    constructor
                    · intro hj
                      exact absurd hj (by rw [POS_USED, POS_FREE]; omega)
                    · intro hnot
                      exfalso
                      apply hnot
                      rw [List.mem_append]
                      exact Or.inr hcs
                  · rw [if_neg hcs]
                    rw [inv.hiff c hc]
                    constructor
                    · intro hno hmem
                      rw [List.mem_append] at hmem
                      rcases hmem with hm | hm
                      · exact hno hm
                      · exact hcs hm
                    · intro hno hm
                      exact hno (by rw [List.mem_append]; exact Or.inl hm)
              · intro c
                show POS_FREE ≤ cubeGet bM.cube c
                have hbMcube : bM.cube =
                    cubeSet bM1.cube (b.head.base + (nd : Int) * b.head.direction)
                      JOINT0 := by
                  rw [hbM, cube_set_offset_cube, hbM1head]
                rw [hbMcube]
                rcases cubeGet_cubeSet_or bM1.cube _ c JOINT0 with h | h
                · rw [h, JOINT0, POS_FREE]; omega
                · rw [h, hbM1]
                  rcases markRange_get_or b 1 nd POS_USED c with h2 | h2
                  · rw [h2, POS_USED, POS_FREE]; omega
                  · rw [h2]; exact inv.hlo c
            · show bM.chain = b.chain
              rw [hbM]; show bM1.chain = b.chain
              rw [hbM1]; exact markRange_chain b 1 nd POS_USED
            · show bM.cubesize = b.cubesize
              rw [hbM]; show bM1.cubesize = b.cubesize
              rw [hbM1]; exact markRange_cubesize b 1 nd POS_USED
            · show bM.paths = b.paths
              rw [hbM]; show bM1.paths = b.paths
              rw [hbM1]; exact markRange_paths b 1 nd POS_USED
    · rw [if_neg hguard] at hstep
      cases hstep
  · intro path' hstep
    rw [Backtrack.loopStep] at hstep
    by_cases hguard : b.pos < b.chain.length
    · rw [if_pos hguard] at hstep
      exfalso
      by_cases hw : b.joint_wrapped (b.cube_get_offset 0)
      · rw [if_neg (not_not_intro hw)] at hstep
        by_cases hp1 : b.pos = 1
        · rw [if_pos hp1] at hstep; cases hstep
        · rw [if_neg hp1] at hstep
          rcases hres : b.restoreStep path with e | bp
          · rw [hres] at hstep; cases hstep
          · rw [hres] at hstep
            obtain ⟨bb, pp⟩ := bp
            cases hstep
      · rw [if_pos hw] at hstep
        by_cases hlt : b.nsteps < b.chain.getD b.pos 0
        · rw [if_pos hlt] at hstep
          rcases hrot : b.head.rotate_to ((b.cube_get_offset 0 + 1) % N_JNTS)
            with e | hh
          · rw [hrot] at hstep
            cases e <;> cases hstep
          · rw [hrot] at hstep; cases hstep
        · rw [if_neg hlt] at hstep
          dsimp only at hstep
          split at hstep <;> cases hstep
    · rw [if_neg hguard] at hstep
      have h1 : path' = path := by
        cases hstep
        rfl
      refine ⟨h1, ?_⟩
      have := inv.hple
      omega

theorem EngineInv_paths (b : Backtrack) (path : List BacktrackHead)
    (ps : List (List BacktrackHead)) (inv : EngineInv b path) :
    EngineInv { b with paths := ps } path :=
  ⟨inv.hlen, inv.hple, inv.hdims, inv.hbase, inv.hlink, inv.hdirs, inv.hchain,
    inv.hnodup, inv.hincube, inv.hiff, inv.hlo⟩

/-- Running the search loop from an invariant state: the engine's chain,
cubesize and paths are untouched, and a returned solution is the loop path
at full chain length, still invariant-respecting. -/
theorem loopRun_inv : ∀ (fuel : Nat) (b : Backtrack) (path : List BacktrackHead),
    EngineInv b path →
    ∀ b' r, Backtrack.loopRun fuel b path = some (.ok (b', r)) →
    b'.chain = b.chain ∧ b'.cubesize = b.cubesize ∧ b'.paths = b.paths ∧
    ∀ sol, r = some sol → EngineInv b' sol ∧ sol.length = b'.chain.length := by
  intro fuel
  induction fuel with
  | zero => intro b path _ b' r h; simp [Backtrack.loopRun] at h
  | succ m ih =>
    intro b path inv b' r h
    rw [Backtrack.loopRun] at h
    cases hs : b.loopStep path with
    | done p =>
      rw [hs] at h
      obtain ⟨hp, hlenp⟩ := (loopStep_inv b path inv).2 p hs
      cases h
      refine ⟨rfl, rfl, rfl, ?_⟩
      intro sol hsol
      cases hsol
      subst hp
      exact ⟨inv, by rw [inv.hlen, hlenp]⟩
    | exhausted =>
      rw [hs] at h
      cases h
      exact ⟨rfl, rfl, rfl, fun sol hsol => by cases hsol⟩
    | error e =>
      rw [hs] at h
      cases h
    | cont b2 p2 =>
      rw [hs] at h
      obtain ⟨inv2, hc, hsz, hpaths⟩ := (loopStep_inv b path inv).1 b2 p2 hs
      obtain ⟨hc', hsz', hpaths', hsol⟩ := ih b2 p2 inv2 b' r h
      exact ⟨hc'.trans hc, hsz'.trans hsz, hpaths'.trans hpaths, hsol⟩

/-- `_backtrack` from a well-formed engine state: normal returns keep the
chain, cubesize and paths, and a returned solution is invariant-respecting
of full chain length. -/
theorem backtrack_inv (fuel : Nat) (b : Backtrack)
    (hentry : (b.pos = 0 ∧ EngineInv (b.cube_set_offset 0 POS_USED) []) ∨
      (∃ last, b.paths.getLast? = some last ∧ EngineInv b last ∧ 1 ≤ b.pos))
    (b' : Backtrack) (r : Option (List BacktrackHead))
    (h : b.backtrack fuel = some (.ok (b', r))) :
    b'.chain = b.chain ∧ b'.cubesize = b.cubesize ∧ b'.paths = b.paths ∧
    (∀ sol, r = some sol → EngineInv b' sol ∧ sol.length = b.chain.length) := by
  rw [Backtrack.backtrack] at h
  rcases hentry with ⟨hp0, hinv⟩ | ⟨last, hlast, hinv, hpos⟩
  · rw [if_pos hp0] at h
    obtain ⟨hc, hs, hpa, hsol⟩ :=
      loopRun_inv fuel (b.cube_set_offset 0 POS_USED) [] hinv b' r h
    exact ⟨hc, hs, hpa, fun sol hs2 =>
      ⟨(hsol sol hs2).1, by rw [(hsol sol hs2).2, hc]; rfl⟩⟩
  · rw [if_neg (by omega)] at h
    simp only [hlast] at h
    rcases hres : b.restoreStep last with e | bp
    · rw [hres] at h
      simp at h
    · rw [hres] at h
      obtain ⟨b2, p2⟩ := bp
      obtain ⟨hi2, hc2, hs2, hp2, hpos2, hdrop⟩ :=
        restoreStep_inv b last hinv hpos b2 p2 hres
      obtain ⟨hc, hs, hpa, hsol⟩ := loopRun_inv fuel b2 p2 hi2 b' r h
      exact ⟨hc.trans hc2, hs.trans hs2, hpa.trans hp2, fun sol hs3 =>
        ⟨(hsol sol hs3).1, by rw [(hsol sol hs3).2, hc, hc2]⟩⟩

theorem getD_replicate {α : Type} (n i : Nat) (a d : α) :
    (List.replicate n a).getD i d = if i < n then a else d := by
  rw [List.getD_eq_getElem?_getD]
  by_cases h : i < n
  · rw [List.getElem?_replicate, if_pos h]; simp [h]
  · rw [List.getElem?_replicate, if_neg h]; simp [h]

theorem init_cube_dims (s : Nat) :
    CubeDims s (List.replicate s (List.replicate s (List.replicate s POS_FREE))) := by
  refine ⟨List.length_replicate s _, ?_⟩
  intro i hi
  rw [getD_replicate, if_pos hi]
  refine ⟨List.length_replicate s _, ?_⟩
  intro j hj
  rw [getD_replicate, if_pos hj]
  exact List.length_replicate s _

theorem init_cube_get (s : Nat) (c : Vector3D) :
    cubeGet (List.replicate s (List.replicate s (List.replicate s POS_FREE))) c =
      POS_FREE := by
  rw [cubeGet, getD_replicate]
  by_cases h1 : c.x.toNat < s
  · rw [if_pos h1, getD_replicate]
    by_cases h2 : c.y.toNat < s
    · rw [if_pos h2, getD_replicate]
      by_cases h3 : c.z.toNat < s
      · rw [if_pos h3]
      · rw [if_neg h3]
    · rw [if_neg h2]
      simp
  · rw [if_neg h1]
    simp

/-- The invariant holds for a fresh engine once `_backtrack`'s first run has
marked the starting cell `POS_USED`. -/
theorem init_inv (chain : List Nat) (cubesize : Nat) (head : BacktrackHead)
    (hchain : ∀ n ∈ chain, 0 < n) (hhead : inCube cubesize head.base) :
    EngineInv ((Backtrack.init chain cubesize head).cube_set_offset 0 POS_USED)
      [] := by
  have hcell : head.base + (0 : Int) * head.direction = head.base := offset_zero _ _
  have hicube : (Backtrack.init chain cubesize head).cube =
      List.replicate cubesize (List.replicate cubesize
        (List.replicate cubesize POS_FREE)) := rfl
  have hdims0 : CubeDims cubesize
      (List.replicate cubesize (List.replicate cubesize
        (List.replicate cubesize POS_FREE))) := init_cube_dims cubesize
  refine ⟨rfl, by show 0 ≤ chain.length; omega, ?_, hhead, ?_, ?_, hchain, ?_, ?_, ?_, ?_⟩
  · show CubeDims cubesize (cubeSet _ (head.base + (0:Int) * head.direction) POS_USED)
    exact cubeDims_cubeSet hdims0 _ _
  · intro k hk
    simp at hk
  · intro h hmem
    simp at hmem
  · show ([head.base] : List Vector3D).Nodup
    simp
  · intro c hc
    show inCube cubesize c
    simp only [occCellsF, List.mem_cons, List.not_mem_nil, or_false] at hc
    rw [hc]
    exact hhead
  · intro c hc
    show cubeGet (cubeSet _ (head.base + (0:Int) * head.direction) POS_USED) c
      = POS_FREE ↔ c ∉ ([head.base] : List Vector3D)
    rw [hcell, hicube]
    by_cases hceq : c = head.base
    · subst hceq
      rw [cubeGet_cubeSet_self hdims0 hhead]
      simp [POS_USED, POS_FREE]
    · rw [cubeGet_cubeSet_ne hdims0 hhead hc hceq]
      rw [init_cube_get]
      simp [hceq]
  · intro c
    show POS_FREE ≤ cubeGet (cubeSet _ (head.base + (0:Int) * head.direction)
      POS_USED) c
    rw [hicube]
    rcases cubeGet_cubeSet_or _ (head.base + (0:Int) * head.direction) c POS_USED
      with h | h
    · rw [h, POS_USED, POS_FREE]; omega
    · rw [h, init_cube_get]

/-- The solution-collecting loop of `solve` only ever accumulates paths of
full chain length whose replayed sweeps are duplicate-free and in bounds. -/
theorem solveLoop_goal : ∀ (outer inner : Nat) (b : Backtrack),
    (∀ p ∈ b.paths, (pathSweep b.chain p).Nodup ∧
      (∀ c ∈ pathSweep b.chain p, inCube b.cubesize c) ∧
      p.length = b.chain.length) →
    ((b.pos = 0 ∧ EngineInv (b.cube_set_offset 0 POS_USED) []) ∨
      (∃ last, b.paths.getLast? = some last ∧ EngineInv b last ∧ 1 ≤ b.pos)) →
    ∀ bf, Backtrack.solveLoop inner outer b = some (.ok bf) →
    bf.chain = b.chain ∧ bf.cubesize = b.cubesize ∧
    ∀ p ∈ bf.paths, (pathSweep bf.chain p).Nodup ∧
      (∀ c ∈ pathSweep bf.chain p, inCube bf.cubesize c) ∧
      p.length = bf.chain.length := by
  intro outer
  induction outer with
  | zero => intro inner b _ _ bf h; simp [Backtrack.solveLoop] at h
  | succ m ih =>
    intro inner b hall hentry bf h
    rw [Backtrack.solveLoop] at h
    rcases hbk : b.backtrack inner with _ | rb
    · rw [hbk] at h; simp at h
    · rw [hbk] at h
      match rb, h with
      | .error e, h => simp at h
      | .ok (b1, none), h =>
        obtain ⟨hc1, hs1, hpa1, _⟩ := backtrack_inv inner b hentry b1 none hbk
        have hbf : b1 = bf := by
          have := Option.some.inj h
          exact Except.ok.inj this
        subst hbf
        refine ⟨hc1, hs1, ?_⟩
        intro p hp
        rw [hc1, hs1]
        exact hall p (by rw [← hpa1]; exact hp)
      | .ok (b1, some sol), h =>
        obtain ⟨hc1, hs1, hpa1, hsol1⟩ := backtrack_inv inner b hentry b1 (some sol) hbk
        obtain ⟨hinvsol, hlensol⟩ := hsol1 sol rfl
        have hsolswp : (pathSweep b1.chain sol).Nodup ∧
            (∀ c ∈ pathSweep b1.chain sol, inCube b1.cubesize c) := by
          cases hsolc : sol with
          | nil => simp [pathSweep]
          | cons s0 rest =>
            have h1 : occCellsF b1.chain sol b1.head.base = pathSweep b1.chain sol := by
              rw [hsolc]
              rfl
            rw [← hsolc]
            rw [← h1]
            exact ⟨hinvsol.hnodup, hinvsol.hincube⟩
        have hall2 : ∀ p ∈ ({ b1 with paths := b1.paths ++ [sol] } : Backtrack).paths,
            (pathSweep b1.chain p).Nodup ∧
            (∀ c ∈ pathSweep b1.chain p, inCube b1.cubesize c) ∧
            p.length = b1.chain.length := by
          intro p hp
          have hp2 : p ∈ b1.paths ++ [sol] := hp
          rw [List.mem_append] at hp2
          rcases hp2 with hp2 | hp2
          · rw [hpa1] at hp2
            have := hall p hp2
            rw [hc1, hs1]
            exact this
          · simp only [List.mem_cons, List.not_mem_nil, or_false] at hp2
            subst hp2
            exact ⟨hsolswp.1, hsolswp.2, by rw [hlensol, hc1]⟩
        have hentry2 : (({ b1 with paths := b1.paths ++ [sol] } : Backtrack).pos = 0 ∧
            EngineInv (({ b1 with paths := b1.paths ++ [sol] } : Backtrack).cube_set_offset
              0 POS_USED) []) ∨
            (∃ last, ({ b1 with paths := b1.paths ++ [sol] } : Backtrack).paths.getLast?
              = some last ∧
              EngineInv { b1 with paths := b1.paths ++ [sol] } last ∧
              1 ≤ ({ b1 with paths := b1.paths ++ [sol] } : Backtrack).pos) := by
          by_cases hp0 : b1.pos = 0
          · left
            refine ⟨hp0, ?_⟩
            have hsolnil : sol = [] := by
              have := hinvsol.hlen
              rw [hp0] at this
              exact List.length_eq_zero.mp this
            subst hsolnil
            have hi1 : EngineInv { b1 with paths := b1.paths ++ [[]] } [] :=
              EngineInv_paths b1 [] _ hinvsol
            exact EngineInv_set_base _ [] hi1 POS_USED
              (by rw [POS_USED, POS_FREE]; omega)
          · right
            refine ⟨sol, ?_, ?_, ?_⟩
            · show (b1.paths ++ [sol]).getLast? = some sol
              exact List.getLast?_concat _
            · exact EngineInv_paths b1 sol _ hinvsol
            · show 1 ≤ b1.pos
              omega
        obtain ⟨hcf, hsf, hallf⟩ := ih inner _ hall2 hentry2 bf h
        refine ⟨hcf.trans hc1, hsf.trans hs1, hallf⟩

/-- C7 counterexample: under the key `(1,0,0)` the table stores a
five-element list, not a four-element one as claimed. -/
theorem c7_counterexample :
    (jointDirectionsGet ⟨1,0,0⟩).map List.length = some 5 ∧
    (jointDirectionsGet ⟨1,0,0⟩).map List.length ≠ some 4 := by
  decide

/-- C7 (amended): the joint table has exactly 6 keys, one per base
direction; each entry's list has 5 elements (not 4 as claimed), the
fifth equal to the first; and the positive and negative key of each axis
map to the same list. -/
theorem c7_table_shape :
    jointDirectionsEntries.length = 6 ∧
    (jointDirectionsEntries.map Prod.fst).Nodup ∧
    (jointDirectionsEntries.map Prod.fst).Perm baseDirections ∧
    jointDirectionsEntries.Forall (fun e => e.2.length = 5 ∧
      e.2.getD 4 ⟨0,0,0⟩ = e.2.getD 0 ⟨0,0,0⟩) ∧
    jointDirectionsGet ⟨1,0,0⟩ = jointDirectionsGet ⟨-1,0,0⟩ ∧
    jointDirectionsGet ⟨0,1,0⟩ = jointDirectionsGet ⟨0,-1,0⟩ ∧
    jointDirectionsGet ⟨0,0,1⟩ = jointDirectionsGet ⟨0,0,-1⟩ := by
  decide

/-- C8: table closure.  For every key direction of the joint table:
candidates `1..4` each arise from the previous one by the key axis's
90-degree rotation matrix, rotating candidate `0` four times returns
exactly candidate `0`, and the four distinct candidates `0..3` are
pairwise distinct and perpendicular to the key. -/
theorem c8_table_closure (key : Vector3D) (hkey : key ∈ baseDirections) :
    ((jointDirectionsGet key).getD []).length = 5 ∧
    (∀ i, i < 5 → 1 ≤ i →
      ((jointDirectionsGet key).getD []).getD i ⟨0,0,0⟩ =
        multiply (keyAxisRot key)
          (((jointDirectionsGet key).getD []).getD (i - 1) ⟨0,0,0⟩)) ∧
    multiply (keyAxisRot key) (multiply (keyAxisRot key) (multiply (keyAxisRot key)
        (multiply (keyAxisRot key) (((jointDirectionsGet key).getD []).getD 0 ⟨0,0,0⟩))))
      = ((jointDirectionsGet key).getD []).getD 0 ⟨0,0,0⟩ ∧
    (((jointDirectionsGet key).getD []).take 4).Nodup ∧
    ∀ c ∈ ((jointDirectionsGet key).getD []).take 4, dot3 c key = 0 := by
  fin_cases hkey <;> decide

theorem c8_table_closure_witness :
    (⟨1,0,0⟩ : Vector3D) ∈ baseDirections ∧
    (((jointDirectionsGet ⟨1,0,0⟩).getD []).take 4).Nodup := by
  refine ⟨by decide, ?_⟩
  exact (c8_table_closure ⟨1,0,0⟩ (by decide)).2.2.2.1

/-- C5 counterexample: scenario A actually yields zero solutions. -/
theorem c5_counterexample :
    (Backtrack.solve 8 scenarioA).map (Except.map (fun r => r.1.length)) =
      some (.ok 0) ∧
    (Backtrack.solve 8 scenarioA).map (Except.map (fun r => r.1.length)) ≠
      some (.ok 1) := by
  decide

/-- C5 (amended): scenario A.  On chain `[1]` in a 1-cube from the
standard start, `solve` finishes normally with the empty list of
solutions (not with one solution as claimed). -/
theorem c5_scenarioA (fuel : Nat) (hf : 8 ≤ fuel) :
    (Backtrack.solve fuel scenarioA).map (Except.map (fun r => r.1)) =
      some (.ok []) := by
  rcases h8 : Backtrack.solve 8 scenarioA with _ | r
  · exact absurd h8 (by decide)
  · rw [solve_mono 8 fuel hf _ _ h8]
    have h0 : (Backtrack.solve 8 scenarioA).map (Except.map (fun r => r.1)) =
        some (.ok []) := by decide
    rw [h8] at h0
    exact h0

theorem c5_scenarioA_witness :
    (Backtrack.solve 8 scenarioA).map (Except.map (fun r => r.1)) =
      some (.ok []) :=
  c5_scenarioA 8 (by decide)

/-- C2: on chain `[1]`, cubesize `2`, the assertion failure of `rotate_to`
escapes `solve()`. -/
theorem c2_assertion_escapes (fuel : Nat) (hf : 8 ≤ fuel) :
    Backtrack.solve fuel c2engine = some (.error .assertionError) := by
  have h8 : Backtrack.solve 8 c2engine = some (.error .assertionError) := by decide
  exact solve_mono 8 fuel hf _ _ h8

theorem c2_assertion_escapes_witness :
    Backtrack.solve 8 c2engine = some (.error .assertionError) :=
  c2_assertion_escapes 8 (by decide)

/-- C3: the first `solve()` on `c3engine` exhausts with zero solutions, and
the second call raises an `IndexError` instead of returning the same empty
list. -/
theorem c3_requery_raises (fuel : Nat) (hf : 64 ≤ fuel) :
    (Backtrack.solve fuel c3engine).map (Except.map (fun r => r.1)) =
      some (.ok []) ∧
    c3second = some (.error .indexError) := by
  constructor
  · rcases h8 : Backtrack.solve 64 c3engine with _ | r
    · exact absurd h8 (by decide)
    · rw [solve_mono 64 fuel hf _ _ h8]
      have h0 : (Backtrack.solve 64 c3engine).map (Except.map (fun r => r.1)) =
          some (.ok []) := by decide
      rw [h8] at h0
      exact h0
  · decide

theorem c3_requery_raises_witness :
    (Backtrack.solve 64 c3engine).map (Except.map (fun r => r.1)) =
      some (.ok []) ∧
    c3second = some (.error .indexError) :=
  c3_requery_raises 64 (by decide)

set_option maxRecDepth 100000 in
/-- C6: scenario C.  On the reference puzzle chain in a 3-cube from the
standard start, `solve` finishes normally with exactly two solutions, and
the second solution's ordered base positions are, pointwise, the
mirror/rotate/rotate transform of the first solution's. -/
theorem c6_scenarioC (fuel : Nat) (hf : 600 ≤ fuel) :
    c6post (Backtrack.solve fuel engC) = true := by
  rcases h6 : Backtrack.solve 600 engC with _ | r
  · exact absurd h6 (by decide)
  · rw [solve_mono 600 fuel hf _ _ h6]
    have h0 : c6post (Backtrack.solve 600 engC) = true := by decide
    rw [h6] at h0
    exact h0

theorem c6_scenarioC_witness : c6post (Backtrack.solve 600 engC) = true :=
  c6_scenarioC 600 (by decide)

/-- C10: for the empty chain, every `backtrack` call returns the empty
path (never the exhaustion signal `none`), `_pos` stays `0`, and therefore
`solve` runs out of any amount of fuel: the Python loop never
terminates. -/
theorem c10_empty_chain (cubesize : Nat) (head : BacktrackHead)
    (hcs : 1 ≤ cubesize) (hin : inCube cubesize head.base) :
    (∀ (b : Backtrack) (fuel : Nat), b.chain = [] → b.pos = 0 →
      b.backtrack (fuel + 1) =
        some (.ok (b.cube_set_offset 0 POS_USED, some [])) ∧
      (b.cube_set_offset 0 POS_USED).pos = 0) ∧
    (∀ fuel : Nat,
      Backtrack.solve fuel (Backtrack.init [] cubesize head) = none) := by
  constructor
  · intro b fuel hc hp
    constructor
    · have hstep : (b.cube_set_offset 0 POS_USED).loopStep [] = .done [] := by
        rw [Backtrack.loopStep, if_neg]
        simp [Backtrack.cube_set_offset, hc, hp]
      rw [Backtrack.backtrack, if_pos hp, Backtrack.loopRun, hstep]
    · exact hp
  · intro fuel
    rw [Backtrack.solve,
      if_pos (show (Backtrack.init [] cubesize head).paths = [] from rfl),
      solveLoop_empty_chain_none fuel fuel _ rfl rfl]
    rfl

theorem c10_empty_chain_witness :
    Backtrack.solve 5 (Backtrack.init [] 1 startHead) = none :=
  (c10_empty_chain 1 startHead (by decide) (by decide)).2 5

/-- C4 counterexample: a reachable wrapped-joint state with progress `1`
(not `0`) on which the loop body returns the terminal exhaustion
signal. -/
theorem c4_counterexample :
    0 < c4engine.pos ∧ c4engine.pos < c4engine.chain.length ∧
    N_JNTS ≤ c4engine.cube_get_offset 0 ∧
    c4engine.loopStep c4path = .exhausted := by
  decide



/-- C4 (amended): in the wrapped-joint branch of the search loop the
terminal exhaustion signal is returned exactly when the progress counter
is `1`; for progress at least `2` the engine pops the last path entry,
decrements progress, frees the popped slice's swept cells, rotates the
head to the popped joint's `state + 1` candidate, writes `state + 1` back
into the popped joint's cell, leaves every other cell unchanged, and
continues the loop. -/
theorem c4_wrapped_joint (b : Backtrack) (path : List BacktrackHead)
    (hguard : b.pos < b.chain.length)
    (hwrap : N_JNTS ≤ b.cube_get_offset 0) :
    (b.loopStep path = .exhausted ↔ b.pos = 1) ∧
    (∀ popped od lst, 2 ≤ b.pos → path.getLast? = some popped →
      popped.old_direction = some od → jointDirectionsGet od = some lst →
      popped.direction ∈ baseDirections →
      CubeDims b.cubesize b.cube →
      (∀ i : Nat, i ≤ b.chain.getD (b.pos - 1) 0 →
        inCube b.cubesize (popped.base + (i : Int) * popped.direction)) →
      ∃ b', b.loopStep path = .cont b' path.dropLast ∧
        b'.pos = b.pos - 1 ∧
        b'.chain = b.chain ∧ b'.cubesize = b.cubesize ∧ b'.paths = b.paths ∧
        b'.head.base = popped.base ∧
        b'.head.direction =
          lst.getD (((cubeGet b.cube popped.base + 1) % N_JNTS).toNat) ⟨0,0,0⟩ ∧
        cubeGet b'.cube popped.base = cubeGet b.cube popped.base + 1 ∧
        (∀ i : Nat, 1 ≤ i → i ≤ b.chain.getD (b.pos - 1) 0 →
          cubeGet b'.cube (popped.base + (i : Int) * popped.direction) =
            POS_FREE) ∧
        (∀ c, inCube b.cubesize c → c ≠ popped.base →
          (∀ i : Nat, 1 ≤ i → i ≤ b.chain.getD (b.pos - 1) 0 →
            c ≠ popped.base + (i : Int) * popped.direction) →
          cubeGet b'.cube c = cubeGet b.cube c)) := by
  have hwrap' : ¬¬ b.joint_wrapped (b.cube_get_offset 0) :=
    not_not_intro hwrap
  constructor
  · constructor
    · intro hex
      by_contra hp1
      rw [Backtrack.loopStep, if_pos hguard, if_neg hwrap', if_neg hp1] at hex
      rcases hres : b.restoreStep path with e | bp
      · rw [hres] at hex; cases hex
      · rw [hres] at hex
        obtain ⟨bb, pp⟩ := bp
        cases hex
    · intro hp1
      rw [Backtrack.loopStep, if_pos hguard, if_neg hwrap', if_pos hp1]
  · intro popped od lst hp2 hlast hod hlst hdirp hdims hin
    have hdirp0 : popped.direction ≠ ⟨0,0,0⟩ := baseDirections_ne_zero hdirp
    have hbase_in : inCube b.cubesize popped.base := by
      have h0 := hin 0 (by omega)
      rw [Nat.cast_zero, offset_zero] at h0
      exact h0
    have hlst5 : lst.length = 5 := (jointDirectionsGet_values hlst).1
    have hidx : ∀ jsv : Int, ((jsv + 1) % N_JNTS).toNat < lst.length := by
      intro jsv
      have h1 : 0 ≤ (jsv + 1) % N_JNTS :=
        Int.emod_nonneg _ (by rw [N_JNTS]; omega)
      have h2 : (jsv + 1) % N_JNTS < N_JNTS :=
        Int.emod_lt_of_pos _ (by rw [N_JNTS]; omega)
      rw [hlst5]
      rw [N_JNTS] at h1 h2 ⊢
      omega
    rcases hres : b.restoreStep path with e | bp
    · exfalso
      rw [Backtrack.restoreStep] at hres
      simp only [hlast] at hres
      split at hres
      next e2 hrot =>
        rw [markRange_head] at hrot
        have hh : ({ b with pos := b.pos - 1, head := popped } : Backtrack).head
            = popped := rfl
        rw [hh] at hrot
        rw [BacktrackHead.rotate_to] at hrot
        simp only [hod, hlst] at hrot
        rw [if_pos (hidx _)] at hrot
        cases hrot
      next h1 hrot => cases hres
    · obtain ⟨bb, pp⟩ := bp
      have hres0 := hres
      rw [Backtrack.restoreStep] at hres
      simp only [hlast] at hres
      split at hres
      next e2 hrot => cases hres
      next h1 hrot =>
        have hinj := Except.ok.inj hres
        have hbb := congrArg Prod.fst hinj
        have hpp := congrArg Prod.snd hinj
        simp only at hbb hpp
        set b1 : Backtrack := { b with pos := b.pos - 1, head := popped } with hb1
        set stp : Nat := b.chain.getD (b.pos - 1) 0 with hstp
        set b2 : Backtrack := b1.markRange 1 (stp + 1) POS_FREE with hb2
        set js : Int := b2.cube_get_offset 0 with hjs0
        have hb2head : b2.head = popped := by
          rw [hb2]; rw [markRange_head]
        have hwin1 : ∀ i, 1 ≤ i → i < stp + 1 →
            inCube b1.cubesize (b1.head.base + (i : Int) * b1.head.direction) := by
          intro i h1i h2i
          exact hin i (by omega)
        have hjsval : js = cubeGet b.cube popped.base := by
          rw [hjs0, Backtrack.cube_get_offset, hb2head, offset_zero, hb2]
          apply markRange_get_notmem b1 1 (stp + 1) POS_FREE popped.base hdims
            hwin1 hbase_in
          intro i h1i h2i hceq
          exact base_ne_offset popped.base popped.direction (i : Int)
            (by exact_mod_cast h1i) hdirp0 hceq.symm
        obtain ⟨od2, lst2, hod2, hlst2, hidx2, h1eq⟩ := rotate_to_ok_eq hrot
        rw [hb2head] at hod2
        have hodeq : od2 = od := Option.some.inj (hod2.symm.trans hod)
        rw [hodeq] at hlst2
        have hlsteq : lst2 = lst := Option.some.inj (hlst2.symm.trans hlst)
        rw [hlsteq] at h1eq
        have hdimsb2 : CubeDims b.cubesize b2.cube := by
          rw [hb2]
          exact markRange_dims b1 1 (stp + 1) POS_FREE hdims
        have hfree2 : ∀ i : Nat, 1 ≤ i → i ≤ stp →
            cubeGet b2.cube (popped.base + (i : Int) * popped.direction) =
              POS_FREE := by
          intro i h1i h2i
          rw [hb2]
          exact markRange_get_mem b1 1 (stp + 1) POS_FREE _ hdims hwin1
            (hin i h2i) ⟨i, h1i, by omega, rfl⟩
        have hold2 : ∀ c, inCube b.cubesize c →
            (∀ i : Nat, 1 ≤ i → i ≤ stp →
              c ≠ popped.base + (i : Int) * popped.direction) →
            cubeGet b2.cube c = cubeGet b.cube c := by
          intro c hc hcnot
          rw [hb2]
          apply markRange_get_notmem b1 1 (stp + 1) POS_FREE c hdims hwin1 hc
          intro i h1i h2i hceq
          exact hcnot i h1i (by omega) hceq
        refine ⟨bb, ?_, ?_, ?_, ?_, ?_, ?_, ?_, ?_, ?_, ?_⟩
        · rw [Backtrack.loopStep, if_pos hguard, if_neg hwrap',
            if_neg (by omega : ¬ b.pos = 1)]
          rw [hres0, ← hpp]
        · rw [← hbb]
          show b2.pos = b.pos - 1
          rw [hb2]; rw [markRange_pos]
        · rw [← hbb]
          show b2.chain = b.chain
          rw [hb2]; rw [markRange_chain]
        · rw [← hbb]
          show b2.cubesize = b.cubesize
          rw [hb2]; rw [markRange_cubesize]
        · rw [← hbb]
          show b2.paths = b.paths
          rw [hb2]; rw [markRange_paths]
        · rw [← hbb]
          show h1.base = popped.base
          rw [h1eq, hb2head]
        · rw [← hbb]
          show h1.direction =
            lst.getD (((cubeGet b.cube popped.base + 1) % N_JNTS).toNat) ⟨0,0,0⟩
          rw [h1eq, hjsval]
        · rw [← hbb]
          show cubeGet (cubeSet b2.cube
            (({ b2 with head := h1 } : Backtrack).head.base +
              (0 : Int) * ({ b2 with head := h1 } : Backtrack).head.direction)
            (js + 1)) popped.base = cubeGet b.cube popped.base + 1
          rw [offset_zero]
          have hh1b : ({ b2 with head := h1 } : Backtrack).head.base =
              popped.base := by
            show h1.base = popped.base
            rw [h1eq, hb2head]
          rw [hh1b]
          rw [cubeGet_cubeSet_self hdimsb2 hbase_in, hjsval]
        · intro i h1i h2i
          rw [← hbb]
          show cubeGet (cubeSet b2.cube
            (({ b2 with head := h1 } : Backtrack).head.base +
              (0 : Int) * ({ b2 with head := h1 } : Backtrack).head.direction)
            (js + 1)) (popped.base + (i : Int) * popped.direction) = POS_FREE
          rw [offset_zero]
          have hh1b : ({ b2 with head := h1 } : Backtrack).head.base =
              popped.base := by
            show h1.base = popped.base
            rw [h1eq, hb2head]
          rw [hh1b]
          rw [cubeGet_cubeSet_ne hdimsb2 hbase_in (hin i h2i)
            (base_ne_offset popped.base popped.direction (i : Int)
              (by exact_mod_cast h1i) hdirp0)]
          exact hfree2 i h1i h2i
        · intro c hc hcnb hcns
          rw [← hbb]
          show cubeGet (cubeSet b2.cube
            (({ b2 with head := h1 } : Backtrack).head.base +
              (0 : Int) * ({ b2 with head := h1 } : Backtrack).head.direction)
            (js + 1)) c = cubeGet b.cube c
          rw [offset_zero]
          have hh1b : ({ b2 with head := h1 } : Backtrack).head.base =
              popped.base := by
            show h1.base = popped.base
            rw [h1eq, hb2head]
          rw [hh1b]
          rw [cubeGet_cubeSet_ne hdimsb2 hbase_in hc hcnb]
          exact hold2 c hc hcns

theorem c4_wrapped_joint_witness :
    c4wb.pos < c4wb.chain.length ∧ N_JNTS ≤ c4wb.cube_get_offset 0 ∧
    ¬ c4wb.loopStep [c4wpopped] = .exhausted ∧
    ∃ b', c4wb.loopStep [c4wpopped] = .cont b' [] := by
  have H := c4_wrapped_joint c4wb [c4wpopped] (by decide) (by decide)
  refine ⟨by decide, by decide, ?_, ?_⟩
  · intro hex
    exact absurd (H.1.mp hex) (by decide)
  · obtain ⟨b', hb', hrest⟩ := H.2 c4wpopped ⟨1,0,0⟩ _ (by decide) rfl rfl rfl
      (by decide)
      (⟨rfl, by
        intro i hi
        have h2 : i < 2 := hi
        interval_cases i <;>
          exact ⟨rfl, by
            intro j hj
            have h3 : j < 2 := hj
            interval_cases j <;> rfl⟩⟩)
      (by
        intro i hi
        have h1 : i ≤ 1 := hi
        interval_cases i <;> decide)
    exact ⟨b', hb'⟩

/-- C1: occupancy invariant.  Every solution collected by a finished
`solve` run started from `Backtrack.init` (with positive chain entries and
an in-cube starting position) sweeps a duplicate-free set of cube cells,
all of whose coordinates lie in `[0, cubesize)`. -/
theorem c1_occupancy (chain : List Nat) (cubesize : Nat) (head : BacktrackHead)
    (fuel : Nat) (sols : List (List BacktrackHead)) (bfin : Backtrack)
    (hchain : ∀ n ∈ chain, 0 < n) (hhead : inCube cubesize head.base)
    (hrun : Backtrack.solve fuel (Backtrack.init chain cubesize head) =
      some (.ok (sols, bfin)))
    (p : List BacktrackHead) (hp : p ∈ sols) :
    (pathSweep chain p).Nodup ∧ ∀ c ∈ pathSweep chain p, inCube cubesize c := by
  rw [Backtrack.solve,
    if_pos (show (Backtrack.init chain cubesize head).paths = [] from rfl)] at hrun
  rcases hsl : Backtrack.solveLoop fuel fuel (Backtrack.init chain cubesize head)
    with _ | r
  · rw [hsl] at hrun; simp at hrun
  · rw [hsl] at hrun
    rcases r with e | bf
    · simp [Except.map] at hrun
    · simp only [Option.map_some', Except.map] at hrun
      have h2 := Except.ok.inj (Option.some.inj hrun)
      have hsols : bf.paths = sols := congrArg Prod.fst h2
      obtain ⟨hcf, hsf, hallf⟩ := solveLoop_goal fuel fuel _
        (by intro p hp; exact absurd hp (List.not_mem_nil p))
        (Or.inl ⟨rfl, init_inv chain cubesize head hchain hhead⟩) bf hsl
      have hres := hallf p (by rw [hsols]; exact hp)
      rw [hcf, hsf] at hres
      exact ⟨hres.1, hres.2.1⟩

theorem c1_occupancy_witness :
    (pathSweep [1, 1] (w11sols.getD 0 [])).Nodup ∧
    ∀ c ∈ pathSweep [1, 1] (w11sols.getD 0 []), inCube 2 c :=
  c1_occupancy [1, 1] 2 startHead 32 w11sols w11fin
    (by decide) (by decide) (by decide) (w11sols.getD 0 []) (by decide)

/-- C9: length invariant.  Every solution collected by a finished `solve`
run started from `Backtrack.init` (with positive chain entries and an
in-cube starting position) has exactly `chain.length` head snapshots. -/
theorem c9_solution_length (chain : List Nat) (cubesize : Nat)
    (head : BacktrackHead) (fuel : Nat) (sols : List (List BacktrackHead))
    (bfin : Backtrack)
    (hchain : ∀ n ∈ chain, 0 < n) (hhead : inCube cubesize head.base)
    (hrun : Backtrack.solve fuel (Backtrack.init chain cubesize head) =
      some (.ok (sols, bfin)))
    (p : List BacktrackHead) (hp : p ∈ sols) : p.length = chain.length := by
  rw [Backtrack.solve,
    if_pos (show (Backtrack.init chain cubesize head).paths = [] from rfl)] at hrun
  rcases hsl : Backtrack.solveLoop fuel fuel (Backtrack.init chain cubesize head)
    with _ | r
  · rw [hsl] at hrun; simp at hrun
  · rw [hsl] at hrun
    rcases r with e | bf
    · simp [Except.map] at hrun
    · simp only [Option.map_some', Except.map] at hrun
      have h2 := Except.ok.inj (Option.some.inj hrun)
      have hsols : bf.paths = sols := congrArg Prod.fst h2
      obtain ⟨hcf, hsf, hallf⟩ := solveLoop_goal fuel fuel _
        (by intro p hp; exact absurd hp (List.not_mem_nil p))
        (Or.inl ⟨rfl, init_inv chain cubesize head hchain hhead⟩) bf hsl
      have hres := hallf p (by rw [hsols]; exact hp)
      rw [hcf] at hres
      exact hres.2.2

theorem c9_solution_length_witness :
    (w111sols.getD 0 []).length = ([1, 1, 1] : List Nat).length :=
  c9_solution_length [1, 1, 1] 2 startHead 100 w111sols w111fin
    (by decide) (by decide) (by decide) (w111sols.getD 0 []) (by decide)
